import Mathlib

/-!
Verification of the publisher-record verification engine of
`journal-alert-to-notion-skill` against its natural-language specification.

The JavaScript sources `scripts/verify_publisher_record.mjs` and its
near-duplicate copy (the larger unnamed module with structured author
parsing) are shallowly embedded below.  Pure string functions become Lean
functions over `List Char`; JavaScript built-ins (`decodeURIComponent`,
`new URL`, `Array.prototype.sort`) are modelled explicitly, with the
behaviours relevant to the verified claims (throw on malformed
percent-encodings, component access of well-formed absolute URLs, stable
comparator sort); network-bound steps (tracking-redirect fetch, browser
navigation, the ScienceDirect curl fetch) are modelled as oracle
parameters of the orchestrator model, so that "no network access" is
expressible as independence from (and non-consultation of) the oracles.
-/

namespace VPR

/-! ### Character-level helpers (ASCII model of the JS semantics used) -/

set_option maxRecDepth 10000

/-- Model of the JS `\s` class on the ASCII range (space, tab, LF, VT, FF, CR). -/
def isWsChar (c : Char) : Bool :=
  c.toNat = 32 || c.toNat = 9 || c.toNat = 10 || c.toNat = 11 || c.toNat = 12 || c.toNat = 13

def isDigitChar (c : Char) : Bool :=
  48 ≤ c.toNat && c.toNat ≤ 57

def isAsciiUpper (c : Char) : Bool :=
  65 ≤ c.toNat && c.toNat ≤ 90

def isAsciiLower (c : Char) : Bool :=
  97 ≤ c.toNat && c.toNat ≤ 122

def isAsciiLetter (c : Char) : Bool :=
  isAsciiUpper c || isAsciiLower c

/-- ASCII lowercasing, the fragment of JS `toLowerCase` used by the sources. -/
def lowerChar (c : Char) : Char :=
  if isAsciiUpper c then Char.ofNat (c.toNat + 32) else c

/-- ASCII uppercasing, the fragment of JS `toUpperCase` used by the sources. -/
def upperChar (c : Char) : Char :=
  if isAsciiLower c then Char.ofNat (c.toNat - 32) else c

def lowerL (l : List Char) : List Char := l.map lowerChar

/-- JS word character (`\w` = `[A-Za-z0-9_]`), used for `\b` boundaries. -/
def isWordChar (c : Char) : Bool :=
  isAsciiLetter c || isDigitChar c || c.toNat = 95

/-- Case-insensitive character equality (ASCII). -/
def eqCI (a b : Char) : Bool := lowerChar a = lowerChar b

/-! ### `cleanText` and friends

`cleanText(value)` in both copies is
`String(value).replace(/\s+/g, " ").trim()` guarded by falsiness. -/

theorem dropWhile_length_le {α : Type} (p : α → Bool) (l : List α) :
    (l.dropWhile p).length ≤ l.length := by
  induction l with
  | nil => simp [List.dropWhile]
  | cons a t ih =>
    by_cases h : p a
    · simp [List.dropWhile, h]
      exact Nat.le_succ_of_le ih
    · simp [List.dropWhile, h]

/-- `replace(/\s+/g, " ")`: collapse every whitespace run to one space
(a whitespace character is skipped when another whitespace character
follows, and emits the single space at the end of its run). -/
def collapseWs : List Char → List Char
  | [] => []
  | [c] => if isWsChar c then [' '] else [c]
  | c1 :: c2 :: rest =>
    if isWsChar c1 then
      if isWsChar c2 then collapseWs (c2 :: rest)
      else ' ' :: collapseWs (c2 :: rest)
    else c1 :: collapseWs (c2 :: rest)

/-- JS `String.prototype.trim` (ASCII whitespace model). -/
def trimL (l : List Char) : List Char :=
  ((l.dropWhile isWsChar).reverse.dropWhile isWsChar).reverse

def cleanTextL (l : List Char) : List Char :=
  trimL (collapseWs l)

def cleanText (s : String) : String :=
  ⟨cleanTextL s.data⟩

/-- `isNotVerifiedValue(value)`: cleaned text empty or the sentinel
`"[not verified]"` case-insensitively. -/
def isNotVerifiedValue (s : String) : Bool :=
  let cleaned := cleanTextL s.data
  cleaned.isEmpty || lowerL cleaned = "[not verified]".data

/-- `ensureField(value)`: the cleaned text, or the explicit sentinel. -/
def ensureField (s : String) : String :=
  let cleaned := cleanTextL s.data
  if cleaned.isEmpty then "[Not verified]" else ⟨cleaned⟩

/-- `uniqueStrings(values)`: clean, drop empties, keep first occurrences. -/
def uniqueStringsGo (seen : List String) : List String → List String
  | [] => []
  | v :: rest =>
    let cleaned := cleanText v
    if cleaned.isEmpty then uniqueStringsGo seen rest
    else if seen.contains cleaned then uniqueStringsGo seen rest
    else cleaned :: uniqueStringsGo (cleaned :: seen) rest

def uniqueStrings (values : List String) : List String :=
  uniqueStringsGo [] values

/-! ### Model of the JS built-in `decodeURIComponent`

`decodeURIComponent` decodes `%XX` escapes and throws a `URIError` on a
malformed escape (missing or non-hex digits) or on byte sequences that are
not valid UTF-8.  The thrown `URIError` is modelled as `none`. -/

def hexVal (c : Char) : Option Nat :=
  if isDigitChar c then some (c.toNat - 48)
  else if 97 ≤ c.toNat && c.toNat ≤ 102 then some (c.toNat - 87)
  else if 65 ≤ c.toNat && c.toNat ≤ 70 then some (c.toNat - 55)
  else none

/-- Read one `%XX` escape from the head of the list. -/
def readPctByte : List Char → Option (Nat × List Char)
  | '%' :: h1 :: h2 :: rest =>
    match hexVal h1, hexVal h2 with
    | some a, some b => some (16 * a + b, rest)
    | _, _ => none
  | _ => none

/-- Read `n` UTF-8 continuation bytes, each written as a `%XX` escape. -/
def readContBytes : Nat → Nat → List Char → Option (Nat × List Char)
  | 0, acc, l => some (acc, l)
  | Nat.succ n, acc, l =>
    match readPctByte l with
    | some (b, rest) =>
      if 0x80 ≤ b && b < 0xC0 then readContBytes n (acc * 64 + (b - 0x80)) rest
      else none
    | none => none

def decodeGo : Nat → List Char → Option (List Char)
  | _, [] => some []
  | 0, _ :: _ => none
  | Nat.succ fuel, c :: rest =>
    if c = '%' then
      match readPctByte (c :: rest) with
      | none => none
      | some (b, rest1) =>
        if b < 0x80 then
          (decodeGo fuel rest1).map (fun t => Char.ofNat b :: t)
        else if 0xC2 ≤ b && b ≤ 0xDF then
          match readContBytes 1 (b - 0xC0) rest1 with
          | some (code, rest2) => (decodeGo fuel rest2).map (fun t => Char.ofNat code :: t)
          | none => none
        else if 0xE0 ≤ b && b ≤ 0xEF then
          match readContBytes 2 (b - 0xE0) rest1 with
          | some (code, rest2) =>
            if 0x800 ≤ code && ¬ (0xD800 ≤ code && code ≤ 0xDFFF) then
              (decodeGo fuel rest2).map (fun t => Char.ofNat code :: t)
            else none
          | none => none
        else if 0xF0 ≤ b && b ≤ 0xF4 then
          match readContBytes 3 (b - 0xF0) rest1 with
          | some (code, rest2) =>
            if 0x10000 ≤ code && code ≤ 0x10FFFF then
              (decodeGo fuel rest2).map (fun t => Char.ofNat code :: t)
            else none
          | none => none
        else none
    else
      (decodeGo fuel rest).map (fun t => c :: t)

/-- `decodeURIComponent`; `none` models the thrown `URIError`. -/
def decodeURIComponentM (l : List Char) : Option (List Char) :=
  decodeGo l.length l

/-! ### `normalizeDoi`, `extractDoiFromText`, `parseYear`

These definitions are shared verbatim by both source copies
(`scripts/verify_publisher_record.mjs` and the unnamed near-duplicate),
whose `normalizeDoi` texts are character-identical. -/

/-- The DOI suffix character class `[-._;()/:A-Z0-9]` with the `i` flag
(codepoints of `- . _ ; ( ) / :` plus digits and letters). -/
def isDoiSuffixChar (c : Char) : Bool :=
  c.toNat = 45 || c.toNat = 46 || c.toNat = 95 || c.toNat = 59 || c.toNat = 40 ||
  c.toNat = 41 || c.toNat = 47 || c.toNat = 58 || isDigitChar c || isAsciiLetter c

/-- The trailing-trim class `[)\],.;\s]` of `normalizeDoi`
(codepoints of `) ] , . ;` plus whitespace). -/
def isDoiTrimChar (c : Char) : Bool :=
  c.toNat = 41 || c.toNat = 93 || c.toNat = 44 || c.toNat = 46 || c.toNat = 59 || isWsChar c

def startsWithCIL : List Char → List Char → Bool
  | [], _ => true
  | _ :: _, [] => false
  | p :: ps, c :: cs => eqCI p c && startsWithCIL ps cs

/-- `raw.replace(/^https?:\/\/(?:dx\.)?doi\.org\//i, "")`.  The anchored
regex matches exactly one of four concrete prefixes, case-insensitively. -/
def stripDoiOrgUrl (l : List Char) : List Char :=
  if startsWithCIL "https://dx.doi.org/".data l then l.drop 19
  else if startsWithCIL "https://doi.org/".data l then l.drop 16
  else if startsWithCIL "http://dx.doi.org/".data l then l.drop 18
  else if startsWithCIL "http://doi.org/".data l then l.drop 15
  else l

/-- `raw.replace(/^doi:\s*/i, "")`. -/
def stripDoiColon (l : List Char) : List Char :=
  if startsWithCIL "doi:".data l then (l.drop 4).dropWhile isWsChar else l

/-- Try `/10\.\d{4,9}\/[-._;()/:A-Z0-9]+/i` anchored at the head of `l`
(greedy, with the backtracking of `\d{4,9}` collapsed: a run of more than
9 digits can never be followed by the required `/`). -/
def matchDoiAt : List Char → Option (List Char)
  | a :: b :: d :: rest =>
    if a = '1' && b = '0' && d = '.' then
      if 4 ≤ (rest.takeWhile isDigitChar).length && (rest.takeWhile isDigitChar).length ≤ 9 then
        if (rest.dropWhile isDigitChar).head? = some '/' then
          if ((rest.dropWhile isDigitChar).tail.takeWhile isDoiSuffixChar).isEmpty then none
          else some (a :: b :: d :: (rest.takeWhile isDigitChar ++ '/' ::
            (rest.dropWhile isDigitChar).tail.takeWhile isDoiSuffixChar))
        else none
      else none
    else none
  | _ => none

/-- Leftmost match of the DOI regex. -/
def findDoiMatch : List Char → Option (List Char)
  | [] => none
  | c :: rest =>
    match matchDoiAt (c :: rest) with
    | some m => some m
    | none => findDoiMatch rest

/-- `match[0].replace(/[)\],.;\s]+$/g, "")`. -/
def trimDoiEnd (l : List Char) : List Char :=
  (l.reverse.dropWhile isDoiTrimChar).reverse

/-- The part of `normalizeDoi` after the `decodeURIComponent` call. -/
def normalizeDoiAfterDecode (raw : List Char) : String :=
  match findDoiMatch (stripDoiColon (stripDoiOrgUrl raw)) with
  | none => ""
  | some m => ⟨"https://doi.org/".data ++ lowerL (trimDoiEnd m)⟩

/-- `normalizeDoi(doiOrUrl)`; `none` models the uncaught `URIError` thrown
by `decodeURIComponent` on a malformed percent-escape. -/
def normalizeDoi (s : String) : Option String :=
  if s.data.isEmpty then some "" else
  match decodeURIComponentM (trimL s.data) with
  | none => none
  | some raw => some (normalizeDoiAfterDecode raw)

/-- `extractDoiFromText(value)` (no percent-decoding, hence total). -/
def extractDoiFromText (s : String) : String :=
  if s.data.isEmpty then "" else
  match findDoiMatch s.data with
  | none => ""
  | some m => ⟨"https://doi.org/".data ++ lowerL (trimDoiEnd m)⟩

/-- `parseYear(value)`: first `\b(19|20)\d{2}\b` token.  `prevWord` tracks
whether the previous character is a word character (for `\b`). -/
def parseYearGo (prevWord : Bool) : List Char → Option (List Char)
  | [] => none
  | c :: rest =>
    (if ¬ prevWord then
      match c, rest with
      | '1', '9' :: d1 :: d2 :: tail =>
        if isDigitChar d1 && isDigitChar d2 &&
            (tail.head?.all (fun t => ¬ isWordChar t)) then
          some ['1', '9', d1, d2]
        else none
      | '2', '0' :: d1 :: d2 :: tail =>
        if isDigitChar d1 && isDigitChar d2 &&
            (tail.head?.all (fun t => ¬ isWordChar t)) then
          some ['2', '0', d1, d2]
        else none
      | _, _ => none
    else none).orElse fun _ => parseYearGo (isWordChar c) rest

def parseYear (s : String) : String :=
  match parseYearGo false s.data with
  | some y => ⟨y⟩
  | none => ""

/-! ### General lemmas about the string primitives -/

theorem takeWhile_append_cons {p : Char → Bool} {xs : List Char} (y : Char) (ys : List Char)
    (hxs : ∀ c ∈ xs, p c = true) (hy : p y = false) :
    (xs ++ y :: ys).takeWhile p = xs := by
  induction xs with
  | nil => simp [List.takeWhile, hy]
  | cons a t ih =>
    have ha : p a = true := hxs a (by simp)
    simp only [List.cons_append, List.takeWhile_cons, ha, if_true]
    rw [ih (fun c hc => hxs c (by simp [hc]))]

theorem dropWhile_append_cons {p : Char → Bool} {xs : List Char} (y : Char) (ys : List Char)
    (hxs : ∀ c ∈ xs, p c = true) (hy : p y = false) :
    (xs ++ y :: ys).dropWhile p = y :: ys := by
  induction xs with
  | nil => simp [List.dropWhile, hy]
  | cons a t ih =>
    have ha : p a = true := hxs a (by simp)
    simp only [List.cons_append, List.dropWhile_cons, ha, if_true]
    exact ih (fun c hc => hxs c (by simp [hc]))

theorem takeWhile_eq_self {p : Char → Bool} {l : List Char}
    (h : ∀ c ∈ l, p c = true) : l.takeWhile p = l := by
  induction l with
  | nil => simp
  | cons a t ih =>
    simp only [List.takeWhile_cons, h a (by simp), if_true]
    rw [ih (fun c hc => h c (by simp [hc]))]

theorem dropWhile_eq_self {p : Char → Bool} {l : List Char}
    (h : ∀ c ∈ l, p c = false) : l.dropWhile p = l := by
  cases l with
  | nil => simp
  | cons a t => simp [List.dropWhile_cons, h a (by simp)]

theorem dropWhile_append_left {p : Char → Bool} {xs : List Char} (ys : List Char)
    (h : ∃ c ∈ xs, p c = false) :
    (xs ++ ys).dropWhile p = xs.dropWhile p ++ ys := by
  induction xs with
  | nil => rcases h with ⟨c, hc, _⟩; simp at hc
  | cons a t ih =>
    by_cases ha : p a = true
    · simp only [List.cons_append, List.dropWhile_cons, ha, if_true]
      apply ih
      rcases h with ⟨c, hc, hcp⟩
      rcases List.mem_cons.mp hc with rfl | hct
      · rw [ha] at hcp; cases hcp
      · exact ⟨c, hct, hcp⟩
    · have ha' : p a = false := by revert ha; cases p a <;> simp
      simp [List.dropWhile_cons, ha']

theorem trimL_eq_self {l : List Char} (h : ∀ c ∈ l, isWsChar c = false) :
    trimL l = l := by
  unfold trimL
  rw [dropWhile_eq_self h, dropWhile_eq_self (by intro c hc; exact h c (List.mem_reverse.mp hc)),
    List.reverse_reverse]

theorem decodeGo_no_pct {l : List Char} :
    ∀ fuel : Nat, (∀ c ∈ l, c ≠ '%') → l.length ≤ fuel → decodeGo fuel l = some l := by
  induction l with
  | nil => intro fuel _ _; cases fuel <;> rfl
  | cons a t ih =>
    intro fuel h hlen
    cases fuel with
    | zero => simp at hlen
    | succ n =>
      have ha : ¬ (a = '%') := h a (by simp)
      simp only [decodeGo, if_neg ha]
      rw [ih n (fun c hc => h c (by simp [hc])) (by simpa using Nat.lt_succ_iff.mp (Nat.lt_of_lt_of_le (Nat.lt_succ_self _) hlen))]
      rfl

theorem decodeURIComponentM_no_pct {l : List Char} (h : ∀ c ∈ l, c ≠ '%') :
    decodeURIComponentM l = some l :=
  decodeGo_no_pct l.length h (Nat.le_refl _)

/-! ### Character-class facts -/

theorem char_toNat_ofNat_valid {n : Nat} (h : Nat.isValidChar n) :
    (Char.ofNat n).toNat = n := by
  rw [Char.ofNat, dif_pos h]
  rfl

theorem lowerChar_toNat_of_upper {c : Char} (h : isAsciiUpper c = true) :
    (lowerChar c).toNat = c.toNat + 32 := by
  have hrange : 65 ≤ c.toNat ∧ c.toNat ≤ 90 := by
    simpa [isAsciiUpper, Bool.and_eq_true, decide_eq_true_eq] using h
  unfold lowerChar
  rw [if_pos h]
  have hvalid : Nat.isValidChar (c.toNat + 32) := by
    left; omega
  exact char_toNat_ofNat_valid hvalid

theorem lowerChar_eq_self {c : Char} (h : isAsciiUpper c = false) :
    lowerChar c = c := by
  unfold lowerChar
  rw [if_neg (by simp [h])]

theorem isAsciiUpper_lowerChar (c : Char) : isAsciiUpper (lowerChar c) = false := by
  by_cases h : isAsciiUpper c = true
  · have := lowerChar_toNat_of_upper h
    have hrange : 65 ≤ c.toNat ∧ c.toNat ≤ 90 := by
      simpa [isAsciiUpper, Bool.and_eq_true, decide_eq_true_eq] using h
    simp [isAsciiUpper, this]
    omega
  · have h' : isAsciiUpper c = false := by revert h; cases isAsciiUpper c <;> simp
    rw [lowerChar_eq_self h']; exact h'

theorem lowerChar_idem (c : Char) : lowerChar (lowerChar c) = lowerChar c :=
  lowerChar_eq_self (isAsciiUpper_lowerChar c)

theorem lowerL_idem (l : List Char) : lowerL (lowerL l) = lowerL l := by
  unfold lowerL
  rw [List.map_map]
  exact List.map_congr_left (fun c _ => lowerChar_idem c)

theorem toNat_eq_iff_eq {a b : Char} : a = b ↔ a.toNat = b.toNat := by
  constructor
  · intro h; rw [h]
  · intro h
    exact Char.eq_of_val_eq (UInt32.toNat.inj h)

theorem isDigitChar_not_ws {c : Char} (h : isDigitChar c = true) : isWsChar c = false := by
  simp only [isDigitChar, Bool.and_eq_true, decide_eq_true_eq] at h
  simp only [isWsChar, Bool.or_eq_false_iff, decide_eq_false_iff_not]
  omega

theorem isDoiSuffixChar_not_ws {c : Char} (h : isDoiSuffixChar c = true) :
    isWsChar c = false := by
  simp only [isDoiSuffixChar, Bool.or_eq_true, decide_eq_true_eq, isDigitChar, isAsciiLetter,
    isAsciiUpper, isAsciiLower, Bool.and_eq_true] at h
  simp only [isWsChar, Bool.or_eq_false_iff, decide_eq_false_iff_not]
  omega

theorem lowerChar_cases (c : Char) :
    ((lowerChar c).toNat = c.toNat + 32 ∧ 65 ≤ c.toNat ∧ c.toNat ≤ 90) ∨ lowerChar c = c := by
  by_cases h : isAsciiUpper c = true
  · left
    refine ⟨lowerChar_toNat_of_upper h, ?_⟩
    simpa [isAsciiUpper, Bool.and_eq_true, decide_eq_true_eq] using h
  · right
    exact lowerChar_eq_self (by revert h; cases isAsciiUpper c <;> simp)

theorem lowerChar_not_ws {c : Char} (h : isWsChar c = false) :
    isWsChar (lowerChar c) = false := by
  rcases lowerChar_cases c with ⟨heq, h65, _⟩ | heq
  · simp only [isWsChar, Bool.or_eq_false_iff, decide_eq_false_iff_not, heq]
    omega
  · rw [heq]; exact h

theorem lowerChar_not_pct {c : Char} (h : c.toNat ≠ 37) :
    (lowerChar c).toNat ≠ 37 := by
  rcases lowerChar_cases c with ⟨heq, h65, _⟩ | heq
  · omega
  · rw [heq]; exact h

theorem lowerChar_doiSuffix {c : Char} (h : isDoiSuffixChar c = true) :
    isDoiSuffixChar (lowerChar c) = true := by
  rcases lowerChar_cases c with ⟨heq, h65, h90⟩ | heq
  · simp only [isDoiSuffixChar, isDigitChar, isAsciiLetter, isAsciiUpper, isAsciiLower,
      Bool.or_eq_true, Bool.and_eq_true, decide_eq_true_eq, heq]
    omega
  · rw [heq]; exact h

theorem lowerChar_not_doiTrim {c : Char} (h : isDoiTrimChar c = false) :
    isDoiTrimChar (lowerChar c) = false := by
  rcases lowerChar_cases c with ⟨heq, h65, h90⟩ | heq
  · simp only [isDoiTrimChar, isWsChar, Bool.or_eq_false_iff, decide_eq_false_iff_not, heq]
    omega
  · rw [heq]; exact h

theorem lowerChar_digit_fix {c : Char} (h : isDigitChar c = true) : lowerChar c = c := by
  apply lowerChar_eq_self
  simp only [isDigitChar, Bool.and_eq_true, decide_eq_true_eq] at h
  simp only [isAsciiUpper, Bool.and_eq_false_iff, decide_eq_false_iff_not]
  omega

theorem isDoiSuffixChar_not_pct {c : Char} (h : isDoiSuffixChar c = true) : c.toNat ≠ 37 := by
  simp only [isDoiSuffixChar, Bool.or_eq_true, decide_eq_true_eq, isDigitChar, isAsciiLetter,
    isAsciiUpper, isAsciiLower, Bool.and_eq_true] at h
  omega

theorem isDigitChar_not_pct {c : Char} (h : isDigitChar c = true) : c.toNat ≠ 37 := by
  simp only [isDigitChar, Bool.and_eq_true, decide_eq_true_eq] at h
  omega

theorem ne_pct_of_toNat {c : Char} (h : c.toNat ≠ 37) : c ≠ '%' := by
  intro hc
  subst hc
  exact h (by decide)

/-! ### Further list lemmas for `trimDoiEnd` and the DOI matcher -/

theorem dropWhile_ne_nil_of_exists {p : Char → Bool} {l : List Char}
    (h : ∃ c ∈ l, p c = false) : l.dropWhile p ≠ [] := by
  induction l with
  | nil => rcases h with ⟨c, hc, _⟩; simp at hc
  | cons a t ih =>
    by_cases ha : p a = true
    · simp only [List.dropWhile_cons, ha, if_true]
      apply ih
      rcases h with ⟨c, hc, hcp⟩
      rcases List.mem_cons.mp hc with rfl | hct
      · rw [ha] at hcp; cases hcp
      · exact ⟨c, hct, hcp⟩
    · have ha' : p a = false := by revert ha; cases p a <;> simp
      simp [List.dropWhile_cons, ha']

theorem dropWhile_head_false {p : Char → Bool} {l : List Char} {c : Char} {cs : List Char}
    (h : l.dropWhile p = c :: cs) : p c = false := by
  induction l with
  | nil => simp at h
  | cons a t ih =>
    by_cases ha : p a = true
    · rw [List.dropWhile_cons, if_pos ha] at h
      exact ih h
    · have ha' : p a = false := by revert ha; cases p a <;> simp
      rw [List.dropWhile_cons, if_neg (by simp [ha'])] at h
      cases h
      exact ha'

theorem trimDoiEnd_append {xs sfx : List Char}
    (h : ∃ c ∈ sfx, isDoiTrimChar c = false) :
    trimDoiEnd (xs ++ sfx) = xs ++ trimDoiEnd sfx := by
  unfold trimDoiEnd
  rw [List.reverse_append,
    dropWhile_append_left _ (by rcases h with ⟨c, hc, hcp⟩; exact ⟨c, List.mem_reverse.mpr hc, hcp⟩),
    List.reverse_append, List.reverse_reverse]

theorem matchDoiAt_full {ds sfx : List Char}
    (hds : ∀ c ∈ ds, isDigitChar c = true)
    (hlen1 : 4 ≤ ds.length) (hlen2 : ds.length ≤ 9)
    (hsfx : ∀ c ∈ sfx, isDoiSuffixChar c = true) (hne : sfx ≠ []) :
    matchDoiAt ('1' :: '0' :: '.' :: (ds ++ '/' :: sfx)) =
      some ('1' :: '0' :: '.' :: (ds ++ '/' :: sfx)) := by
  have hslash : isDigitChar '/' = false := by decide
  simp only [matchDoiAt]
  rw [if_pos (by decide)]
  rw [takeWhile_append_cons _ _ hds hslash, dropWhile_append_cons _ _ hds hslash]
  rw [if_pos (by simp [hlen1, hlen2])]
  rw [if_pos (by simp)]
  simp only [List.tail_cons]
  rw [takeWhile_eq_self hsfx]
  rw [if_neg (by simp [List.isEmpty_iff, hne])]

/-! ### The validity predicate of claim C3 and the DOI token shape -/

/-- A DOI-shaped token `10.<4-9 digits>/<suffix>` as in the `normalizeDoi`
regex. -/
def doiToken (ds sfx : List Char) : List Char :=
  '1' :: '0' :: '.' :: (ds ++ '/' :: sfx)

/-- A valid DOI for claim C3: 4 to 9 registrant digits and a non-empty
suffix of DOI characters at least one of which is not pure trailing
punctuation (a DOI whose entire suffix is made of `) . ;` is degenerate and
is destroyed by the trailing-punctuation trim). -/
def ValidDoiParts (ds sfx : List Char) : Prop :=
  4 ≤ ds.length ∧ ds.length ≤ 9 ∧ (∀ c ∈ ds, isDigitChar c = true) ∧
  sfx ≠ [] ∧ (∀ c ∈ sfx, isDoiSuffixChar c = true) ∧ (∃ c ∈ sfx, isDoiTrimChar c = false)

/-- The accepted input shapes of claim C3. -/
def doiShapes : List (List Char) :=
  [[], "doi:".data, "http://dx.doi.org/".data, "https://doi.org/".data]

theorem doiToken_chars {ds sfx : List Char} (h : ValidDoiParts ds sfx) :
    ∀ c ∈ doiToken ds sfx, isWsChar c = false ∧ c.toNat ≠ 37 := by
  obtain ⟨_, _, hds, _, hsfx, _⟩ := h
  intro c hc
  simp only [doiToken, List.mem_cons, List.mem_append] at hc
  rcases hc with rfl | rfl | rfl | (hc | (rfl | hc))
  · exact ⟨by decide, by decide⟩
  · exact ⟨by decide, by decide⟩
  · exact ⟨by decide, by decide⟩
  · exact ⟨isDigitChar_not_ws (hds c hc), isDigitChar_not_pct (hds c hc)⟩
  · exact ⟨by decide, by decide⟩
  · exact ⟨isDoiSuffixChar_not_ws (hsfx c hc), isDoiSuffixChar_not_pct (hsfx c hc)⟩

theorem list_isEmpty_false {α : Type} {l : List α} (h : l ≠ []) : l.isEmpty = false := by
  cases l with
  | nil => exact absurd rfl h
  | cons a t => rfl

/-- Core computation of `normalizeDoi` once the stripped text is a clean
DOI token. -/
theorem normalizeDoi_core {l ds sfx : List Char}
    (hne : l ≠ [])
    (hclean : ∀ c ∈ l, isWsChar c = false ∧ c.toNat ≠ 37)
    (hstrip : stripDoiColon (stripDoiOrgUrl l) = doiToken ds sfx)
    (hv : ValidDoiParts ds sfx) :
    normalizeDoi ⟨l⟩ =
      some ⟨"https://doi.org/".data ++ lowerL (trimDoiEnd (doiToken ds sfx))⟩ := by
  obtain ⟨hlen1, hlen2, hds, hsfxne, hsfx, _⟩ := hv
  unfold normalizeDoi
  have hdata : (String.mk l).data = l := rfl
  rw [hdata, list_isEmpty_false hne, if_neg (by simp)]
  rw [trimL_eq_self (fun c hc => (hclean c hc).1)]
  rw [decodeURIComponentM_no_pct (fun c hc => ne_pct_of_toNat (hclean c hc).2)]
  show some (normalizeDoiAfterDecode l) = _
  unfold normalizeDoiAfterDecode
  rw [hstrip]
  have hfind : findDoiMatch (doiToken ds sfx) = some (doiToken ds sfx) := by
    unfold doiToken
    unfold findDoiMatch
    rw [matchDoiAt_full hds hlen1 hlen2 hsfx hsfxne]
  rw [hfind]

theorem strip_shape (ds sfx p : List Char) (hp : p ∈ doiShapes) :
    stripDoiColon (stripDoiOrgUrl (p ++ doiToken ds sfx)) = doiToken ds sfx := by
  simp only [doiShapes, List.mem_cons, List.mem_singleton] at hp
  rcases hp with rfl | rfl | rfl | (rfl | h)
  · rfl
  · rfl
  · rfl
  · rfl
  · simp at h

theorem doiToken_as_append (ds sfx : List Char) :
    doiToken ds sfx = ('1' :: '0' :: '.' :: (ds ++ ['/'])) ++ sfx := by
  simp [doiToken]

theorem trimDoiEnd_token {ds sfx : List Char}
    (h : ∃ c ∈ sfx, isDoiTrimChar c = false) :
    trimDoiEnd (doiToken ds sfx) = doiToken ds (trimDoiEnd sfx) := by
  rw [doiToken_as_append, trimDoiEnd_append h, ← doiToken_as_append]

theorem lowerL_token {ds sfx : List Char} (hds : ∀ c ∈ ds, isDigitChar c = true) :
    lowerL (doiToken ds sfx) = doiToken ds (lowerL sfx) := by
  have h1 : lowerChar '1' = '1' := by decide
  have h0 : lowerChar '0' = '0' := by decide
  have hdot : lowerChar '.' = '.' := by decide
  have hsl : lowerChar '/' = '/' := by decide
  have hdsfix : ds.map lowerChar = ds := by
    have h := List.map_congr_left (g := fun c => c) (fun c hc => lowerChar_digit_fix (hds c hc))
    simpa using h
  simp [doiToken, lowerL, h1, h0, hdot, hsl, hdsfix]

/-- Claim C3, main statement: on every accepted DOI-bearing input shape,
`normalizeDoi` produces the canonical lowercase `https://doi.org/` form and
is idempotent on it. -/
theorem normalizeDoi_shape_idem (ds sfx p : List Char)
    (hv : ValidDoiParts ds sfx) (hp : p ∈ doiShapes) :
    normalizeDoi ⟨p ++ doiToken ds sfx⟩ =
      some ⟨"https://doi.org/".data ++ lowerL (trimDoiEnd (doiToken ds sfx))⟩ ∧
    normalizeDoi ⟨"https://doi.org/".data ++ lowerL (trimDoiEnd (doiToken ds sfx))⟩ =
      some ⟨"https://doi.org/".data ++ lowerL (trimDoiEnd (doiToken ds sfx))⟩ := by
  obtain ⟨hlen1, hlen2, hds, hsfxne, hsfx, hsome⟩ := hv
  -- characters of the shape prefixes are clean
  have hshapes : ∀ q ∈ doiShapes, ∀ c ∈ q, isWsChar c = false ∧ c.toNat ≠ 37 := by decide
  have hpclean : ∀ c ∈ p, isWsChar c = false ∧ c.toNat ≠ 37 := hshapes p hp
  have htokclean := doiToken_chars ⟨hlen1, hlen2, hds, hsfxne, hsfx, hsome⟩
  -- the first application
  have happ1 : normalizeDoi ⟨p ++ doiToken ds sfx⟩ =
      some ⟨"https://doi.org/".data ++ lowerL (trimDoiEnd (doiToken ds sfx))⟩ := by
    apply normalizeDoi_core
    · intro h
      rcases List.append_eq_nil.mp h with ⟨_, htok⟩
      simp [doiToken] at htok
    · intro c hc
      rcases List.mem_append.mp hc with hc | hc
      · exact hpclean c hc
      · exact htokclean c hc
    · exact strip_shape ds sfx p hp
    · exact ⟨hlen1, hlen2, hds, hsfxne, hsfx, hsome⟩
  refine ⟨happ1, ?_⟩
  -- structure of the trimmed suffix
  have hrevne : sfx.reverse.dropWhile isDoiTrimChar ≠ [] := by
    apply dropWhile_ne_nil_of_exists
    rcases hsome with ⟨c, hc, hcp⟩
    exact ⟨c, List.mem_reverse.mpr hc, hcp⟩
  obtain ⟨c0, cs0, heq0⟩ : ∃ c0 cs0, sfx.reverse.dropWhile isDoiTrimChar = c0 :: cs0 := by
    cases hh : sfx.reverse.dropWhile isDoiTrimChar with
    | nil => exact absurd hh hrevne
    | cons a t => exact ⟨a, t, rfl⟩
  have hc0 : isDoiTrimChar c0 = false := dropWhile_head_false heq0
  have hrtsrev : (trimDoiEnd sfx).reverse = c0 :: cs0 := by
    unfold trimDoiEnd; rw [List.reverse_reverse, heq0]
  have hrtsne : trimDoiEnd sfx ≠ [] := by
    intro h
    rw [h] at hrtsrev
    simp at hrtsrev
  have hrts_sub : ∀ c ∈ trimDoiEnd sfx, c ∈ sfx := by
    intro c hc
    have h1 : c ∈ sfx.reverse.dropWhile isDoiTrimChar := by
      rw [heq0, ← hrtsrev]
      exact List.mem_reverse.mpr hc
    exact List.mem_reverse.mp ((List.dropWhile_sublist isDoiTrimChar).subset h1)
  have hc0mem : c0 ∈ trimDoiEnd sfx := by
    rw [← List.mem_reverse, hrtsrev]
    simp
  -- the lowered trimmed suffix is a valid suffix again
  have hv2 : ValidDoiParts ds (lowerL (trimDoiEnd sfx)) := by
    refine ⟨hlen1, hlen2, hds, ?_, ?_, ?_⟩
    · simp [lowerL, hrtsne]
    · intro c hc
      rcases List.mem_map.mp hc with ⟨c1, hc1, rfl⟩
      exact lowerChar_doiSuffix (hsfx c1 (hrts_sub c1 hc1))
    · exact ⟨lowerChar c0, List.mem_map_of_mem _ hc0mem, lowerChar_not_doiTrim hc0⟩
  have htok2 : lowerL (trimDoiEnd (doiToken ds sfx)) = doiToken ds (lowerL (trimDoiEnd sfx)) := by
    rw [trimDoiEnd_token hsome, lowerL_token hds]
  -- second application via the same core computation
  have happ2 : normalizeDoi ⟨"https://doi.org/".data ++ doiToken ds (lowerL (trimDoiEnd sfx))⟩ =
      some ⟨"https://doi.org/".data ++
        lowerL (trimDoiEnd (doiToken ds (lowerL (trimDoiEnd sfx))))⟩ := by
    apply normalizeDoi_core
    · intro h
      rcases List.append_eq_nil.mp h with ⟨h1, _⟩
      simp at h1
    · intro c hc
      rcases List.mem_append.mp hc with hc | hc
      · exact hshapes "https://doi.org/".data (by simp [doiShapes]) c hc
      · exact doiToken_chars hv2 c hc
    · exact strip_shape ds (lowerL (trimDoiEnd sfx)) _ (by simp [doiShapes])
    · exact hv2
  -- the lowered trimmed token is a fixed point
  have hfix : lowerL (trimDoiEnd (doiToken ds (lowerL (trimDoiEnd sfx)))) =
      doiToken ds (lowerL (trimDoiEnd sfx)) := by
    have hsome2 : ∃ c ∈ lowerL (trimDoiEnd sfx), isDoiTrimChar c = false :=
      ⟨lowerChar c0, List.mem_map_of_mem _ hc0mem, lowerChar_not_doiTrim hc0⟩
    rw [trimDoiEnd_token hsome2]
    have e1 : (lowerL (trimDoiEnd sfx)).reverse = lowerChar c0 :: lowerL cs0 := by
      unfold lowerL
      rw [← List.map_reverse, hrtsrev]
      rfl
    have htrimfix : trimDoiEnd (lowerL (trimDoiEnd sfx)) = lowerL (trimDoiEnd sfx) := by
      show ((lowerL (trimDoiEnd sfx)).reverse.dropWhile isDoiTrimChar).reverse =
        lowerL (trimDoiEnd sfx)
      rw [e1, List.dropWhile_cons, if_neg (by simp [lowerChar_not_doiTrim hc0])]
      rw [← e1, List.reverse_reverse]
    rw [htrimfix, lowerL_token hds]
    have : lowerL (lowerL (trimDoiEnd sfx)) = lowerL (trimDoiEnd sfx) := lowerL_idem _
    rw [this]
  rw [htok2, happ2, hfix]

/-- C3.  For every string carrying a valid DOI in any of the accepted input
shapes (`doi:` prefix, `http://dx.doi.org/` URL, `https://doi.org/` URL, or
a bare mixed-case token), `normalizeDoi` is idempotent on it and its result
is `https://doi.org/` followed by an all-lowercase DOI suffix.  Validity of
the DOI (`ValidDoiParts`) requires a non-empty suffix of DOI characters at
least one of which is not trailing-punctuation (`) . ;`), since the
trailing-punctuation trim inside `normalizeDoi` erases a purely
punctuation suffix. -/
theorem doi_normalization_idempotent (ds sfx p : List Char)
    (hv : ValidDoiParts ds sfx) (hp : p ∈ doiShapes) :
    ∃ y : String,
      normalizeDoi ⟨p ++ doiToken ds sfx⟩ = some y ∧
      normalizeDoi y = some y ∧
      y.data = "https://doi.org/".data ++ lowerL (trimDoiEnd (doiToken ds sfx)) ∧
      ∀ c ∈ y.data.drop 16, isAsciiUpper c = false := by
  obtain ⟨h1, h2⟩ := normalizeDoi_shape_idem ds sfx p hv hp
  refine ⟨⟨"https://doi.org/".data ++ lowerL (trimDoiEnd (doiToken ds sfx))⟩, h1, h2, rfl, ?_⟩
  intro c hc
  have hdrop : ("https://doi.org/".data ++ lowerL (trimDoiEnd (doiToken ds sfx))).drop 16 =
      lowerL (trimDoiEnd (doiToken ds sfx)) := by
    have hlen : ("https://doi.org/".data).length = 16 := by decide
    rw [← hlen, List.drop_left]
  rw [show (String.mk ("https://doi.org/".data ++ lowerL (trimDoiEnd (doiToken ds sfx)))).data
      = "https://doi.org/".data ++ lowerL (trimDoiEnd (doiToken ds sfx)) from rfl] at hc
  rw [hdrop] at hc
  rcases List.mem_map.mp hc with ⟨c1, _, rfl⟩
  exact isAsciiUpper_lowerChar c1

/-- Witness for C3 at the concrete input `doi:10.5465/AMJ.2020.0515`. -/
theorem doi_normalization_idempotent_witness :
    ∃ y : String,
      normalizeDoi ⟨"doi:".data ++ doiToken "5465".data "AMJ.2020.0515".data⟩ = some y ∧
      normalizeDoi y = some y ∧
      y.data = "https://doi.org/".data ++
        lowerL (trimDoiEnd (doiToken "5465".data "AMJ.2020.0515".data)) ∧
      ∀ c ∈ y.data.drop 16, isAsciiUpper c = false :=
  doi_normalization_idempotent "5465".data "AMJ.2020.0515".data "doi:".data
    ⟨by decide, by decide, by decide, by decide, by decide, by decide⟩
    (by simp [doiShapes])

/-- C10, counterexample: `normalizeDoi` is called on the raw input before
any guard, and `decodeURIComponent("%")` throws a `URIError`; the claim
that `normalizeDoi` never throws on any input string is therefore false. -/
theorem normalizeDoi_lone_percent_throws : normalizeDoi "%" = none := by decide

/-- C10, amended: for every input string whose percent-escapes are
well-formed (i.e. on which the `decodeURIComponent` call succeeds),
`normalizeDoi` returns a string, and returns the empty string when no
DOI-shaped token is found after prefix stripping. -/
theorem normalizeDoi_total_on_wellformed (s : String)
    (h : (decodeURIComponentM (trimL s.data)).isSome = true) :
    (normalizeDoi s).isSome = true ∧
    (∀ raw, decodeURIComponentM (trimL s.data) = some raw →
      findDoiMatch (stripDoiColon (stripDoiOrgUrl raw)) = none →
      normalizeDoi s = some "") := by
  unfold normalizeDoi
  by_cases he : s.data.isEmpty = true
  · rw [if_pos he]
    exact ⟨rfl, fun _ _ _ => rfl⟩
  · rw [if_neg he]
    cases hd : decodeURIComponentM (trimL s.data) with
    | none => rw [hd] at h; cases h
    | some raw =>
      refine ⟨rfl, ?_⟩
      intro raw2 hraw2 hfind
      cases hraw2
      show some (normalizeDoiAfterDecode raw) = some ""
      unfold normalizeDoiAfterDecode
      rw [hfind]

/-! ### Splitting on whitespace and generic word/phrase matching

`splitWords` models `s.split(/\s+/).filter(Boolean)` (the sources always
filter out empty segments after splitting). -/

def splitWords : List Char → List (List Char)
  | [] => []
  | [c] => if isWsChar c then [] else [[c]]
  | c1 :: c2 :: rest =>
    if isWsChar c1 then splitWords (c2 :: rest)
    else if isWsChar c2 then [c1] :: splitWords (c2 :: rest)
    else
      match splitWords (c2 :: rest) with
      | [] => [[c1]]
      | seg :: segs => (c1 :: seg) :: segs

/-- Split on a single character (JS `String.prototype.split("-")` keeps
empty segments; callers filter them). -/
def splitOnChar (sep : Char) : List Char → List (List Char)
  | [] => [[]]
  | c :: rest =>
    if c = sep then [] :: splitOnChar sep rest
    else
      match splitOnChar sep rest with
      | [] => [[c]]
      | seg :: segs => (c :: seg) :: segs

/-- Remainder after a case-insensitive literal, or `none`. -/
def eatCI (w : List Char) (l : List Char) : Option (List Char) :=
  if startsWithCIL w l then some (l.drop w.length) else none

/-- `\b` to the right of the current position. -/
def boundaryAfter (l : List Char) : Bool :=
  l.head?.all (fun t => ¬ isWordChar t)

/-- Scan for a matcher that must start at a `\b` boundary (every pattern
used by the sources starts with a word character). -/
def scanBW (m : List Char → Bool) : Bool → List Char → Bool
  | _, [] => false
  | prevWord, c :: rest => (!prevWord && m (c :: rest)) || scanBW m (isWordChar c) rest

/-- Scan for a matcher anywhere (patterns without a leading `\b`). -/
def scanAny (m : List Char → Bool) : List Char → Bool
  | [] => false
  | c :: rest => m (c :: rest) || scanAny m rest

/-- `\bw\b` as a substring test (`test()` of `/\bw\b/i`). -/
def hasWordCI (w : List Char) (s : List Char) : Bool :=
  scanBW (fun l =>
    match eatCI w l with
    | some r => boundaryAfter r
    | none => false) false s

/-- `\bw1\s*w2\b` as a substring test. -/
def hasPhrase2CI (w1 w2 : List Char) (s : List Char) : Bool :=
  scanBW (fun l =>
    match eatCI w1 l with
    | some r =>
      match eatCI w2 (r.dropWhile isWsChar) with
      | some r2 => boundaryAfter r2
      | none => false
    | none => false) false s

/-! ### Author parsing (the unnamed near-duplicate source copy)

Constants `AUTHOR_FAMILY_PARTICLES`, `CORPORATE_AUTHOR_TERMS`,
`AUTHOR_SUFFIX_RE` and the functions below follow the structured author
parser of the larger copy. -/

def AUTHOR_FAMILY_PARTICLES : List String :=
  ["da", "de", "del", "della", "der", "di", "du", "la", "le", "van", "von",
   "bin", "ibn", "al", "el", "st.", "st"]

/-- The corporate-author keywords.  Each source pattern `/\bword\b/i` (and
the `\bcorp\.?\b`-style variants, whose optional dot never affects whether
a match exists, since `.` is itself a non-word boundary character) is an
existence test for the bare word. -/
def CORPORATE_AUTHOR_TERMS : List String :=
  ["association", "committee", "consortium", "university", "center", "centre",
   "institute", "organization", "group", "corporation", "corp", "inc", "ltd",
   "llc", "plc"]

/-- `AUTHOR_SUFFIX_RE = /^(jr|sr|ii|iii|iv|v)\.?$/i` as a whole-token test. -/
def isAuthorSuffixToken (s : String) : Bool :=
  ["jr", "sr", "ii", "iii", "iv", "v"].any fun a =>
    lowerL s.data = a.data || lowerL s.data = a.data ++ ['.']

/-! `stripAcademicHonorifics` is textually identical in both source copies. -/

def honorificHeads : List (List Char) :=
  ["dr".data, "professor".data, "prof".data, "mr".data, "mrs".data, "ms".data]

/-- One alternative of `/^(dr|professor|prof|mr|mrs|ms)\.?\s+/i`: the title,
an optional dot, then at least one whitespace character. -/
def tryHonorific (alt : List Char) (l : List Char) : Option (List Char) :=
  match eatCI alt l with
  | none => none
  | some r =>
    if r.head? = some '.' then
      if (r.drop 1).head?.any isWsChar then some ((r.drop 1).dropWhile isWsChar) else none
    else if r.head?.any isWsChar then some (r.dropWhile isWsChar) else none

def stripHonorificHead (l : List Char) : List Char :=
  match (honorificHeads.filterMap fun alt => tryHonorific alt l).head? with
  | some r => r
  | none => l

/-- Whole-tail test for `\s*,?\s*(ph\.?\s*d\.?|m\.?\s*d\.?|dba|mba|jd)\s*$`. -/
def acadTailAfter (base : List Char) (r : List Char) : Bool :=
  match eatCI base r with
  | some r4 =>
    ((if r4.head? = some '.' then r4.drop 1 else r4).dropWhile isWsChar) |>
      (fun r6 =>
        match eatCI ['d'] r6 with
        | some r7 =>
          ((if r7.head? = some '.' then r7.drop 1 else r7).dropWhile isWsChar).isEmpty
        | none => false)
  | none => false

def acadTailFixed (w : List Char) (r : List Char) : Bool :=
  match eatCI w r with
  | some r4 => (r4.dropWhile isWsChar).isEmpty
  | none => false

def acadTail (l : List Char) : Bool :=
  let r1 := l.dropWhile isWsChar
  let r2 := if r1.head? = some ',' then r1.drop 1 else r1
  let r3 := r2.dropWhile isWsChar
  acadTailAfter "ph".data r3 || acadTailAfter "m".data r3 ||
  acadTailFixed "dba".data r3 || acadTailFixed "mba".data r3 ||
  acadTailFixed "jd".data r3

/-- Strip the leftmost match of the trailing-degree regex (everything from
the first position whose tail matches it to the end of the string). -/
def stripAcadGo : List Char → List Char
  | [] => []
  | c :: rest => if acadTail (c :: rest) then [] else c :: stripAcadGo rest

/-- `stripAcademicHonorifics(name)` (identical in both source copies). -/
def stripAcademicHonorifics (s : String) : String :=
  ⟨trimL (stripAcadGo (stripHonorificHead (cleanTextL s.data)))⟩

def isCommaSemiChar (c : Char) : Bool := c.toNat = 44 || c.toNat = 59

/-- `normalizeAuthorToken(token)`: strip leading/trailing `,`/`;` runs, then
clean. -/
def normalizeAuthorToken (s : String) : String :=
  cleanText ⟨((s.data.dropWhile isCommaSemiChar).reverse.dropWhile isCommaSemiChar).reverse⟩

/-- `looksCorporateAuthorName(name)`. -/
def looksCorporateAuthorName (s : String) : Bool :=
  let cleaned := cleanTextL s.data
  if cleaned.isEmpty then false
  else CORPORATE_AUTHOR_TERMS.any fun w => hasWordCI w.data cleaned

/-- `splitGivenTokens(raw)`. -/
def splitGivenTokens (s : String) : List String :=
  ((splitWords (cleanTextL s.data)).map fun w => normalizeAuthorToken ⟨w⟩).filter
    fun t => !t.data.isEmpty

/-- `token.replace(/\.$/, "")`. -/
def dropOneTrailingDot (l : List Char) : List Char :=
  match l.reverse with
  | '.' :: r => r.reverse
  | _ => l

/-- `token.replace(/^([a-z])/i, m => m.toUpperCase())`. -/
def capFirst (l : List Char) : List Char :=
  match l with
  | [] => []
  | c :: r => upperChar c :: r

/-- `extractAuthorSuffix(tokens)` (the `hadUnsupportedSuffix` flag is
constant `false` in the source and is omitted). -/
def extractAuthorSuffix (tokens : List String) : List String × String :=
  match tokens.reverse with
  | [] => ([], "")
  | lastTok :: revRest =>
    let last := normalizeAuthorToken lastTok
    if last.data.isEmpty then (revRest.reverse, "")
    else if isAuthorSuffixToken last then
      (revRest.reverse, ⟨capFirst (dropOneTrailingDot last.data)⟩)
    else (tokens, "")

def keepInitialCharP1 (c : Char) : Bool :=
  isAsciiLetter c || c.toNat = 39 || c.toNat = 45

def keepInitialCharScript (c : Char) : Bool :=
  isAsciiLetter c || c.toNat = 45

/-- One cleaned given-name part rendered to initials (shared shape of the
two copies; the `keep` filter differs: the larger copy keeps apostrophes). -/
def initialsOfPart (cleaned : List Char) : List Char :=
  if cleaned.contains '-' then
    (((splitOnChar '-' cleaned).filter fun seg => !seg.isEmpty).map fun seg =>
      match seg with
      | [] => []
      | c :: _ => [upperChar c, '.']) |> List.intercalate ['-']
  else
    match cleaned with
    | [] => []
    | c :: _ => [upperChar c, '.']

/-- `buildAuthorInitials(givenTokens)` of the larger copy. -/
def buildAuthorInitials (givenTokens : List String) : String :=
  ⟨((((givenTokens.map fun t => trimL t.data).filter fun t => !t.isEmpty).map
      fun part => part.filter keepInitialCharP1).filter fun t => !t.isEmpty).map
    initialsOfPart |> List.intercalate [' ']⟩

structure StructuredAuthor where
  raw : String
  family : String
  given : List String
  suffix : String
  formattedApa : String
  parseMode : String
  source : String
  confidence : String
deriving DecidableEq, Repr

/-- `formatApaAuthorFromStructured(authorObj)` (our embedding always holds
`given` as a list, the array branch of the source). -/
def formatApaAuthorFromStructured (a : StructuredAuthor) : String :=
  let raw := stripAcademicHonorifics a.raw
  let family := cleanText a.family
  let given := (a.given.map normalizeAuthorToken).filter fun t => !t.data.isEmpty
  let suffix := cleanText a.suffix
  let parseMode := cleanText a.parseMode
  if parseMode = "corporate" || parseMode = "mononym" then
    if !raw.data.isEmpty then raw else if !family.data.isEmpty then family else ""
  else if family.data.isEmpty then
    if !raw.data.isEmpty then raw
    else buildAuthorInitials given
  else
    let initials := buildAuthorInitials given
    let rendered :=
      if initials.data.isEmpty then family
      else ⟨family.data ++ ", ".data ++ initials.data⟩
    if suffix.data.isEmpty then rendered
    else ⟨rendered.data ++ ", ".data ++ suffix.data⟩

/-- First comma split: `raw.indexOf(",")`, `raw.slice(0, i)`,
`raw.slice(i + 1)`. -/
def breakAtComma : List Char → Option (List Char × List Char)
  | [] => none
  | c :: rest =>
    if c = ',' then some ([], rest)
    else (breakAtComma rest).map fun p => (c :: p.1, p.2)

/-- `normalizeStructuredAuthorCandidate(candidate, options)` specialised to
list-valued `given` (the only shape our flows produce). -/
def normalizeStructuredAuthorCandidate (cand : StructuredAuthor) (optSource : String) :
    Option StructuredAuthor :=
  let raw := stripAcademicHonorifics cand.raw
  let family := cleanText cand.family
  let givenRaw := (cand.given.map normalizeAuthorToken).filter fun t => !t.data.isEmpty
  let suffix := cleanText cand.suffix
  let parseMode := if (cleanText cand.parseMode).data.isEmpty then "structured"
    else cleanText cand.parseMode
  let source := if (cleanText cand.source).data.isEmpty then cleanText optSource
    else cleanText cand.source
  let confidence := if (cleanText cand.confidence).data.isEmpty then "high"
    else cleanText cand.confidence
  if family.data.isEmpty ∧ givenRaw.isEmpty ∧ raw.data.isEmpty then none
  else
    let rawOut := if !raw.data.isEmpty then raw
      else cleanText ⟨List.intercalate [' '] (family.data :: givenRaw.map String.data)⟩
    let base : StructuredAuthor :=
      { raw := rawOut, family := family, given := givenRaw, suffix := suffix,
        formattedApa := "", parseMode := parseMode, source := source,
        confidence := confidence }
    some { base with formattedApa := formatApaAuthorFromStructured base }

/-- `parseAuthorName(rawName, options)` of the larger copy.  Options are the
two fields the source reads: `preferCommaSurnameFirst` and `source`. -/
def parseAuthorName (rawName : String) (preferCommaSurnameFirst : Bool)
    (source : String) : Option StructuredAuthor × List String :=
  let raw := stripAcademicHonorifics rawName
  if raw.data.isEmpty then (none, [])
  else if looksCorporateAuthorName raw then
    (some { raw := raw, family := "", given := [], suffix := "",
            formattedApa := raw, parseMode := "corporate",
            source := cleanText source, confidence := "medium" }, [])
  else
    match breakAtComma raw.data with
    | some (before, after) =>
      let family := cleanText ⟨before⟩
      let givenPart := cleanText ⟨after⟩
      let suffixSplit := extractAuthorSuffix (splitGivenTokens givenPart)
      let base : StructuredAuthor :=
        { raw := raw, family := family, given := suffixSplit.1,
          suffix := suffixSplit.2, formattedApa := "",
          parseMode := "comma_surname_first", source := cleanText source,
          confidence := "high" }
      (some { base with formattedApa := formatApaAuthorFromStructured base }, [])
    | none =>
      -- no comma in the raw text; `preferCommaSurnameFirst` alone does not
      -- enter the comma branch (the inner `if (commaIdx >= 0)` guards it)
      let parts := ((splitWords raw.data).map fun w =>
        normalizeAuthorToken ⟨w⟩).filter fun t => !t.data.isEmpty
      match parts with
      | [] =>
        -- unreachable for non-empty cleaned text; mirrors `parts.length === 1`
        -- falling through with no tokens
        (none, [])
      | [single] =>
        (some { raw := raw, family := "", given := [], suffix := "",
                formattedApa := single, parseMode := "mononym",
                source := cleanText source, confidence := "low" },
         ["author_parse_low_confidence_mononym"])
      | _ :: _ :: _ =>
        let suffixSplit := extractAuthorSuffix parts
        let tokens := suffixSplit.1
        match tokens.reverse with
        | [] => (none, [])
        | lastTok :: revBefore =>
          let particleRun := revBefore.takeWhile fun t =>
            AUTHOR_FAMILY_PARTICLES.contains ⟨lowerL t.data⟩
          let familyTokens := particleRun.reverse ++ [lastTok]
          let givenTokens := (revBefore.dropWhile fun t =>
            AUTHOR_FAMILY_PARTICLES.contains ⟨lowerL t.data⟩).reverse
          let family := cleanText ⟨List.intercalate [' '] (familyTokens.map String.data)⟩
          let base : StructuredAuthor :=
            { raw := raw, family := family, given := givenTokens,
              suffix := suffixSplit.2, formattedApa := "",
              parseMode := "space_given_first", source := cleanText source,
              confidence := "medium" }
          let author : StructuredAuthor :=
            { base with formattedApa := formatApaAuthorFromStructured base }
          (some author,
           if family.data.isEmpty then ["author_parse_missing_family_name"] else [])

/-- `parseAuthorList(authorNames, options)` (returned warnings are not used
by the claims and are omitted). -/
def parseAuthorListGo (preferComma : Bool) (source : String) (seen : List String) :
    List String → List StructuredAuthor
  | [] => []
  | rawName :: rest =>
    match (parseAuthorName rawName preferComma source).1 with
    | none => parseAuthorListGo preferComma source seen rest
    | some author =>
      match normalizeStructuredAuthorCandidate author source with
      | none => parseAuthorListGo preferComma source seen rest
      | some normalized =>
        let key : String :=
          ⟨lowerL (normalized.formattedApa.data ++ "||".data ++ normalized.raw.data)⟩
        if seen.contains key then parseAuthorListGo preferComma source seen rest
        else normalized :: parseAuthorListGo preferComma source (key :: seen) rest

def parseAuthorList (authorNames : List String) (preferComma : Bool)
    (source : String) : List StructuredAuthor :=
  parseAuthorListGo preferComma source [] authorNames

/-- The shared "dedupe by lowercased formatted name, then join in APA list
style" tail of both `formatApaAuthors` variants. -/
def joinApaList (deduped : List String) : String :=
  match deduped with
  | [] => ""
  | [d] => d
  | [d1, d2] => ⟨d1.data ++ ", & ".data ++ d2.data⟩
  | _ :: _ :: _ :: _ =>
    ⟨(List.intercalate ", ".data (deduped.dropLast.map String.data)) ++ ", & ".data ++
      (deduped.getLast?.getD "").data⟩

def dedupByLowerGo (seen : List (List Char)) : List String → List String
  | [] => []
  | f :: rest =>
    if f.data.isEmpty then dedupByLowerGo seen rest
    else if seen.contains (lowerL f.data) then dedupByLowerGo seen rest
    else f :: dedupByLowerGo (lowerL f.data :: seen) rest

/-- `formatApaAuthorsFromStructured(authorObjs)` of the larger copy. -/
def formatApaAuthorsFromStructured (authorObjs : List StructuredAuthor) : String :=
  joinApaList (dedupByLowerGo [] (authorObjs.map formatApaAuthorFromStructured))

namespace P1

/-- `formatApaAuthor(name)` of the larger copy. -/
def formatApaAuthor (name : String) : String :=
  formatApaAuthorsFromStructured (parseAuthorList [name] false "")

/-- `formatApaAuthors(authors)` of the larger copy. -/
def formatApaAuthors (authors : List String) : String :=
  formatApaAuthorsFromStructured (parseAuthorList authors false "")

end P1

namespace Script

/-- `formatApaAuthor(name)` of `scripts/verify_publisher_record.mjs`: split
on whitespace, last token is the surname, the rest become initials. -/
def formatApaAuthor (name : String) : String :=
  let cleaned := stripAcademicHonorifics name
  if cleaned.data.isEmpty then ""
  else
    match splitWords cleaned.data with
    | [] => ""
    | [single] => ⟨single⟩
    | parts@(_ :: _ :: _) =>
      match parts.reverse with
      | [] => ""
      | surname :: revGiven =>
        let given := revGiven.reverse
        let initials :=
          (((given.map fun part => part.filter keepInitialCharScript).filter
            fun t => !t.isEmpty).map initialsOfPart) |> List.intercalate [' ']
        if initials.isEmpty then ⟨surname⟩
        else ⟨surname ++ ", ".data ++ initials⟩

/-- `formatApaAuthors(authors)` of `scripts/verify_publisher_record.mjs`. -/
def formatApaAuthors (authors : List String) : String :=
  joinApaList (dedupByLowerGo [] (authors.map formatApaAuthor))

end Script

/-! ### Simple two-token names, on which the two author-formatting copies
agree (claim C9) -/

/-- The formatted APA string both copies produce for a plain
"Given Family" name. -/
def simpleFmt (g0 : Char) (f : List Char) : String :=
  ⟨f ++ [',', ' ', upperChar g0, '.']⟩

/-- The structured author both stages of the larger copy produce for a
plain "Given Family" name. -/
def mkSimpleAuthor (g0 : Char) (gt f : List Char) (name : String) : StructuredAuthor :=
  { raw := name, family := ⟨f⟩, given := [⟨g0 :: gt⟩], suffix := "",
    formattedApa := simpleFmt g0 f, parseMode := "space_given_first",
    source := "", confidence := "medium" }

/-- A plain "Given Family" author name: two non-empty all-ASCII-letter
tokens separated by one space, no honorific or degree affix, not
corporate, the family token not a generational suffix, the given token not
a family particle. -/
def SimpleName (g0 : Char) (gt f : List Char) (name : String) : Prop :=
  name.data = (g0 :: gt) ++ ' ' :: f ∧ f ≠ [] ∧
  (∀ c ∈ g0 :: gt, isAsciiLetter c = true) ∧ (∀ c ∈ f, isAsciiLetter c = true) ∧
  stripAcademicHonorifics name = name ∧
  looksCorporateAuthorName name = false ∧
  isAuthorSuffixToken ⟨f⟩ = false ∧
  AUTHOR_FAMILY_PARTICLES.contains ⟨lowerL (g0 :: gt)⟩ = false

theorem isAsciiLetter_not_ws {c : Char} (h : isAsciiLetter c = true) : isWsChar c = false := by
  simp only [isAsciiLetter, isAsciiUpper, isAsciiLower, Bool.or_eq_true, Bool.and_eq_true,
    decide_eq_true_eq] at h
  simp only [isWsChar, Bool.or_eq_false_iff, decide_eq_false_iff_not]
  omega

theorem isAsciiLetter_not_commaSemi {c : Char} (h : isAsciiLetter c = true) :
    isCommaSemiChar c = false := by
  simp only [isAsciiLetter, isAsciiUpper, isAsciiLower, Bool.or_eq_true, Bool.and_eq_true,
    decide_eq_true_eq] at h
  simp only [isCommaSemiChar, Bool.or_eq_false_iff, decide_eq_false_iff_not]
  omega

theorem isAsciiLetter_keepP1 {c : Char} (h : isAsciiLetter c = true) :
    keepInitialCharP1 c = true := by
  simp [keepInitialCharP1, h]

theorem isAsciiLetter_keepScript {c : Char} (h : isAsciiLetter c = true) :
    keepInitialCharScript c = true := by
  simp [keepInitialCharScript, h]

theorem isAsciiLetter_ne_comma {c : Char} (h : isAsciiLetter c = true) : c ≠ ',' := by
  simp only [isAsciiLetter, isAsciiUpper, isAsciiLower, Bool.or_eq_true, Bool.and_eq_true,
    decide_eq_true_eq] at h
  intro hc
  subst hc
  revert h
  decide

theorem isAsciiLetter_ne_hyphen {c : Char} (h : isAsciiLetter c = true) : c ≠ '-' := by
  simp only [isAsciiLetter, isAsciiUpper, isAsciiLower, Bool.or_eq_true, Bool.and_eq_true,
    decide_eq_true_eq] at h
  intro hc
  subst hc
  revert h
  decide

theorem collapseWs_eq_self {l : List Char} (h : ∀ c ∈ l, isWsChar c = false) :
    collapseWs l = l := by
  induction l with
  | nil => rfl
  | cons c rest ih =>
    cases rest with
    | nil => simp [collapseWs, h c (by simp)]
    | cons c2 rest2 =>
      have hc : isWsChar c = false := h c (by simp)
      simp only [collapseWs, hc, Bool.false_eq_true, if_false]
      rw [ih (fun x hx => h x (by simp [hx]))]

theorem collapseWs_append_nonws {g m : List Char} (hg : ∀ c ∈ g, isWsChar c = false)
    (hm : m ≠ []) : collapseWs (g ++ m) = g ++ collapseWs m := by
  induction g with
  | nil => rfl
  | cons c gt ih =>
    obtain ⟨d, t, hdt⟩ : ∃ d t, gt ++ m = d :: t := by
      cases hh : gt ++ m with
      | nil => exact absurd (List.append_eq_nil.mp hh).2 hm
      | cons d t => exact ⟨d, t, rfl⟩
    have hc : isWsChar c = false := hg c (by simp)
    rw [List.cons_append, hdt]
    simp only [collapseWs, hc, Bool.false_eq_true, if_false]
    rw [← hdt, ih (fun x hx => hg x (by simp [hx]))]
    simp

theorem dropWhile_cons_false {p : Char → Bool} {a : Char} {l : List Char}
    (h : p a = false) : (a :: l).dropWhile p = a :: l := by
  simp [List.dropWhile_cons, h]

theorem trimL_pair {g f : List Char} (hg : g ≠ []) (hf : f ≠ [])
    (hgc : ∀ c ∈ g, isWsChar c = false) (hfc : ∀ c ∈ f, isWsChar c = false) :
    trimL (g ++ ' ' :: f) = g ++ ' ' :: f := by
  obtain ⟨g0, gt, rfl⟩ : ∃ g0 gt, g = g0 :: gt := by
    cases g with
    | nil => exact absurd rfl hg
    | cons a b => exact ⟨a, b, rfl⟩
  unfold trimL
  rw [List.cons_append, dropWhile_cons_false (hgc g0 (by simp)), ← List.cons_append]
  obtain ⟨r0, rt, hr⟩ : ∃ r0 rt, f.reverse = r0 :: rt := by
    cases hh : f.reverse with
    | nil => exact absurd (List.reverse_eq_nil_iff.mp hh) hf
    | cons a b => exact ⟨a, b, rfl⟩
  have hrev : ((g0 :: gt) ++ ' ' :: f).reverse = r0 :: (rt ++ ' ' :: (g0 :: gt).reverse) := by
    rw [List.reverse_append, List.reverse_cons, hr]
    simp
  rw [hrev, dropWhile_cons_false (hfc r0 (by rw [← List.mem_reverse, hr]; simp)), ← hrev,
    List.reverse_reverse]

theorem cleanTextL_pair {g f : List Char} (hg : g ≠ []) (hf : f ≠ [])
    (hgc : ∀ c ∈ g, isWsChar c = false) (hfc : ∀ c ∈ f, isWsChar c = false) :
    cleanTextL (g ++ ' ' :: f) = g ++ ' ' :: f := by
  unfold cleanTextL
  obtain ⟨f0, ft, rfl⟩ : ∃ f0 ft, f = f0 :: ft := by
    cases f with
    | nil => exact absurd rfl hf
    | cons a b => exact ⟨a, b, rfl⟩
  have h1 : collapseWs (g ++ ' ' :: f0 :: ft) = g ++ collapseWs (' ' :: f0 :: ft) :=
    collapseWs_append_nonws hgc (by simp)
  have h2 : collapseWs (' ' :: f0 :: ft) = ' ' :: f0 :: ft := by
    simp only [collapseWs, show isWsChar ' ' = true from rfl, if_true,
      isAsciiLetter_not_ws, hfc f0 (by simp), Bool.false_eq_true, if_false]
    rw [collapseWs_eq_self (fun x hx => hfc x (by simp [hx]))]
  rw [h1, h2]
  exact trimL_pair hg hf hgc hfc

theorem cleanTextL_of_nonws {l : List Char} (h : ∀ c ∈ l, isWsChar c = false) :
    cleanTextL l = l := by
  unfold cleanTextL
  rw [collapseWs_eq_self h]
  exact trimL_eq_self h

theorem normalizeAuthorToken_id {w : List Char} (h : ∀ c ∈ w, isAsciiLetter c = true) :
    normalizeAuthorToken ⟨w⟩ = ⟨w⟩ := by
  unfold normalizeAuthorToken
  have hdata : (String.mk w).data = w := rfl
  rw [hdata, dropWhile_eq_self (fun c hc => isAsciiLetter_not_commaSemi (h c hc)),
    dropWhile_eq_self (fun c hc =>
      isAsciiLetter_not_commaSemi (h c (List.mem_reverse.mp hc))),
    List.reverse_reverse]
  unfold cleanText
  rw [hdata, cleanTextL_of_nonws (fun c hc => isAsciiLetter_not_ws (h c hc))]

theorem splitWords_single {l : List Char} (hne : l ≠ [])
    (h : ∀ c ∈ l, isWsChar c = false) : splitWords l = [l] := by
  induction l with
  | nil => exact absurd rfl hne
  | cons c rest ih =>
    cases rest with
    | nil => simp [splitWords, h c (by simp)]
    | cons c2 rest2 =>
      have hc : isWsChar c = false := h c (by simp)
      have hc2 : isWsChar c2 = false := h c2 (by simp)
      simp only [splitWords, hc, hc2, Bool.false_eq_true, if_false]
      rw [ih (by simp) (fun x hx => h x (by simp [hx]))]

theorem splitWords_pair {g f : List Char} (hg : g ≠ []) (hf : f ≠ [])
    (hgc : ∀ c ∈ g, isWsChar c = false) (hfc : ∀ c ∈ f, isWsChar c = false) :
    splitWords (g ++ ' ' :: f) = [g, f] := by
  induction g with
  | nil => exact absurd rfl hg
  | cons c gt ih =>
    cases gt with
    | nil =>
      obtain ⟨f0, ft, rfl⟩ : ∃ f0 ft, f = f0 :: ft := by
        cases f with
        | nil => exact absurd rfl hf
        | cons a b => exact ⟨a, b, rfl⟩
      simp only [List.cons_append, List.nil_append, splitWords, hgc c (by simp),
        show isWsChar ' ' = true from rfl, Bool.false_eq_true, if_false, if_true,
        hfc f0 (by simp)]
      rw [splitWords_single (by simp) (fun x hx => hfc x hx)]
    | cons c2 gt2 =>
      have hc : isWsChar c = false := hgc c (by simp)
      have hc2 : isWsChar c2 = false := hgc c2 (by simp)
      have ihh := ih (by simp) (fun x hx => hgc x (by simp [hx]))
      simp only [List.cons_append] at ihh ⊢
      simp only [splitWords, hc, hc2, Bool.false_eq_true, if_false]
      rw [ihh]

theorem intercalate_single {α : Type} (sep : List α) (x : List α) :
    List.intercalate sep [x] = x := by
  simp [List.intercalate]

theorem contains_hyphen_false {g : List Char} (h : ∀ c ∈ g, isAsciiLetter c = true) :
    g.contains '-' = false := by
  have : ¬ ('-' ∈ g) := fun hm => isAsciiLetter_ne_hyphen (h _ hm) rfl
  simpa [List.contains, List.elem_eq_mem] using this

theorem buildAuthorInitials_single {g0 : Char} {gt : List Char}
    (h : ∀ c ∈ g0 :: gt, isAsciiLetter c = true) :
    buildAuthorInitials [⟨g0 :: gt⟩] = ⟨[upperChar g0, '.']⟩ := by
  unfold buildAuthorInitials
  have hdata : (String.mk (g0 :: gt)).data = g0 :: gt := rfl
  have htrim : trimL (g0 :: gt) = g0 :: gt :=
    trimL_eq_self (fun c hc => isAsciiLetter_not_ws (h c hc))
  have hfilter : (g0 :: gt).filter keepInitialCharP1 = g0 :: gt :=
    List.filter_eq_self.mpr (fun c hc => isAsciiLetter_keepP1 (h c hc))
  simp only [List.map_cons, List.map_nil, hdata, htrim, List.filter_cons]
  rw [if_pos (by simp)]
  simp only [List.filter_nil, List.map_cons, List.map_nil, hfilter, List.filter_cons]
  rw [if_pos (by simp)]
  simp only [List.filter_nil, List.map_cons, List.map_nil]
  rw [show initialsOfPart (g0 :: gt) = [upperChar g0, '.'] by
    unfold initialsOfPart
    rw [contains_hyphen_false h]
    simp]
  rw [intercalate_single]

theorem initialsOfPart_letters {g0 : Char} {gt : List Char}
    (h : ∀ c ∈ g0 :: gt, isAsciiLetter c = true) :
    initialsOfPart (g0 :: gt) = [upperChar g0, '.'] := by
  unfold initialsOfPart
  rw [contains_hyphen_false h]
  simp

theorem breakAtComma_none {l : List Char} (h : ∀ c ∈ l, c ≠ ',') :
    breakAtComma l = none := by
  induction l with
  | nil => rfl
  | cons c rest ih =>
    simp only [breakAtComma, if_neg (h c (by simp))]
    rw [ih (fun x hx => h x (by simp [hx]))]
    rfl

theorem simpleName_clean {g0 : Char} {gt f : List Char} {name : String}
    (h : SimpleName g0 gt f name) : cleanTextL name.data = name.data := by
  obtain ⟨hdata, hf, hg, hfc, _, _, _, _⟩ := h
  rw [hdata]
  exact cleanTextL_pair (by simp) hf
    (fun c hc => isAsciiLetter_not_ws (hg c hc))
    (fun c hc => isAsciiLetter_not_ws (hfc c hc))

set_option maxHeartbeats 1000000 in
theorem fmt_structured_simple {g0 : Char} {gt f : List Char} {name fa conf : String}
    (hstrip : stripAcademicHonorifics name = name)
    (hf : f ≠ []) (hfc : ∀ c ∈ f, isAsciiLetter c = true)
    (hg : ∀ c ∈ g0 :: gt, isAsciiLetter c = true) :
    formatApaAuthorFromStructured
      { raw := name, family := ⟨f⟩, given := [⟨g0 :: gt⟩], suffix := "",
        formattedApa := fa, parseMode := "space_given_first", source := "",
        confidence := conf } = simpleFmt g0 f := by
  unfold formatApaAuthorFromStructured
  simp only [hstrip]
  have h1 : cleanText (String.mk f) = String.mk f := by
    unfold cleanText
    rw [show (String.mk f).data = f from rfl,
      cleanTextL_of_nonws (fun c hc => isAsciiLetter_not_ws (hfc c hc))]
  have h2 : (String.mk f).data.isEmpty = false := by simpa [List.isEmpty_iff] using hf
  have h3 : List.filter (fun t => !t.data.isEmpty)
      (List.map normalizeAuthorToken [(⟨g0 :: gt⟩ : String)]) = [⟨g0 :: gt⟩] := by
    simp only [List.map_cons, List.map_nil, normalizeAuthorToken_id hg, List.filter_cons]
    rw [if_pos (by simp)]
    rfl
  have h4 : buildAuthorInitials [(⟨g0 :: gt⟩ : String)] = ⟨[upperChar g0, '.']⟩ :=
    buildAuthorInitials_single hg
  simp only [h1, h3, h4, h2]
  simp [simpleFmt]
  rw [if_neg (by decide), if_pos (by decide)]
set_option maxHeartbeats 1000000 in
theorem parseAuthorName_simple {g0 : Char} {gt f : List Char} {name : String}
    (h : SimpleName g0 gt f name) :
    (parseAuthorName name false "").1 = some (mkSimpleAuthor g0 gt f name) := by
  obtain ⟨hdata, hf, hg, hfc, hstrip, hcorp, hsfx, hpart⟩ := h
  unfold parseAuthorName
  simp only [hstrip]
  have hne : name.data.isEmpty = false := by rw [hdata]; simp
  have hcomma : breakAtComma name.data = none := by
    apply breakAtComma_none
    rw [hdata]
    intro c hc
    rcases List.mem_append.mp hc with hc | hc
    · exact isAsciiLetter_ne_comma (hg c hc)
    · rcases List.mem_cons.mp hc with rfl | hc
      · decide
      · exact isAsciiLetter_ne_comma (hfc c hc)
  have hsplit : splitWords name.data = [g0 :: gt, f] := by
    rw [hdata]
    exact splitWords_pair (by simp) hf
      (fun c hc => isAsciiLetter_not_ws (hg c hc))
      (fun c hc => isAsciiLetter_not_ws (hfc c hc))
  have hnorm_g : normalizeAuthorToken ⟨g0 :: gt⟩ = ⟨g0 :: gt⟩ := normalizeAuthorToken_id hg
  have hnorm_f : normalizeAuthorToken ⟨f⟩ = ⟨f⟩ := normalizeAuthorToken_id hfc
  have hfne : (String.mk f).data.isEmpty = false := by simpa [List.isEmpty_iff] using hf
  have hsuffix : extractAuthorSuffix [⟨g0 :: gt⟩, ⟨f⟩] = ([⟨g0 :: gt⟩, ⟨f⟩], "") := by
    unfold extractAuthorSuffix
    simp only [List.reverse_cons, List.reverse_nil, List.nil_append, List.cons_append,
      List.singleton_append]
    rw [hnorm_f]
    rw [if_neg (by rw [hfne]; exact Bool.false_ne_true)]
    rw [if_neg (by rw [hsfx]; exact Bool.false_ne_true)]
  have hfam : cleanText (String.mk (List.intercalate [' '] [(String.mk f).data])) =
      String.mk f := by
    rw [intercalate_single]
    show cleanText ⟨f⟩ = ⟨f⟩
    unfold cleanText
    rw [show (String.mk f).data = f from rfl,
      cleanTextL_of_nonws (fun c hc => isAsciiLetter_not_ws (hfc c hc))]
  have hmkdata : ∀ l : List Char, (String.mk l).data = l := fun _ => rfl
  have hfe : f.isEmpty = false := by simpa [List.isEmpty_iff] using hf
  have hclean0 : cleanText "" = "" := rfl
  have hfam2 : cleanText ⟨List.intercalate [' '] [f]⟩ = ⟨f⟩ := by
    rw [intercalate_single]
    show cleanText ⟨f⟩ = ⟨f⟩
    unfold cleanText
    rw [hmkdata, cleanTextL_of_nonws (fun c hc => isAsciiLetter_not_ws (hfc c hc))]
  simp only [hne, hcorp, hcomma, hsplit, List.map_cons, List.map_nil, hnorm_g, hnorm_f,
    List.filter_cons, Bool.false_eq_true, if_false, hmkdata, List.isEmpty_cons, hfe,
    Bool.not_false, if_true, List.filter_nil, hsuffix, List.reverse_cons, List.reverse_nil,
    List.nil_append, List.cons_append, List.singleton_append, List.takeWhile_cons,
    List.dropWhile_cons, hpart, List.takeWhile_nil, List.dropWhile_nil, hfam2, hclean0]
  rw [fmt_structured_simple hstrip hf hfc hg]
  unfold mkSimpleAuthor
  rfl

set_option maxHeartbeats 1000000 in
theorem normalizeCandidate_simple {g0 : Char} {gt f : List Char} {name : String}
    (h : SimpleName g0 gt f name) :
    normalizeStructuredAuthorCandidate (mkSimpleAuthor g0 gt f name) "" =
      some (mkSimpleAuthor g0 gt f name) := by
  obtain ⟨hdata, hf, hg, hfc, hstrip, hcorp, hsfx, hpart⟩ := h
  unfold normalizeStructuredAuthorCandidate mkSimpleAuthor
  simp only [hstrip]
  have hmkdata : ∀ l : List Char, (String.mk l).data = l := fun _ => rfl
  have hfam : cleanText (String.mk f) = String.mk f := by
    unfold cleanText
    rw [hmkdata, cleanTextL_of_nonws (fun c hc => isAsciiLetter_not_ws (hfc c hc))]
  have hgiven : List.filter (fun t => !t.data.isEmpty)
      (List.map normalizeAuthorToken [(⟨g0 :: gt⟩ : String)]) = [⟨g0 :: gt⟩] := by
    simp only [List.map_cons, List.map_nil, normalizeAuthorToken_id hg, List.filter_cons]
    rw [if_pos (by simp)]
    rfl
  have hne : name.data.isEmpty = false := by rw [hdata]; simp
  have hfne : (String.mk f).data.isEmpty = false := by simpa [List.isEmpty_iff] using hf
  have c1 : cleanText "space_given_first" = "space_given_first" := rfl
  have c2 : cleanText "medium" = "medium" := rfl
  have c3 : cleanText "" = "" := rfl
  have d1 : ("space_given_first" : String).data.isEmpty = false := rfl
  have d2 : ("medium" : String).data.isEmpty = false := rfl
  have d3 : ("" : String).data.isEmpty = true := rfl
  simp only [hfam, hgiven, hne, hfne, c1, c2, c3, d1, d2, d3, Bool.not_false, if_true,
    Bool.false_eq_true, false_and, if_false]
  rw [fmt_structured_simple hstrip hf hfc hg]

set_option maxHeartbeats 1000000 in
theorem script_formatApaAuthor_simple {g0 : Char} {gt f : List Char} {name : String}
    (h : SimpleName g0 gt f name) :
    Script.formatApaAuthor name = simpleFmt g0 f := by
  obtain ⟨hdata, hf, hg, hfc, hstrip, hcorp, hsfx, hpart⟩ := h
  unfold Script.formatApaAuthor
  simp only [hstrip]
  have hne : name.data.isEmpty = false := by rw [hdata]; simp
  have hsplit : splitWords name.data = [g0 :: gt, f] := by
    rw [hdata]
    exact splitWords_pair (by simp) hf
      (fun c hc => isAsciiLetter_not_ws (hg c hc))
      (fun c hc => isAsciiLetter_not_ws (hfc c hc))
  have hfilter : (g0 :: gt).filter keepInitialCharScript = g0 :: gt :=
    List.filter_eq_self.mpr (fun c hc => isAsciiLetter_keepScript (hg c hc))
  simp only [hne, Bool.false_eq_true, if_false, hsplit, List.reverse_cons, List.reverse_nil,
    List.nil_append, List.cons_append, List.singleton_append, List.map_cons, List.map_nil,
    hfilter, List.filter_cons, List.isEmpty_cons, Bool.not_false, if_true, List.filter_nil,
    initialsOfPart_letters hg]
  rw [intercalate_single]
  rw [if_neg (by simp)]
  unfold simpleFmt
  congr 1
  simp

theorem simpleFmt_data (g0 : Char) (f : List Char) :
    (simpleFmt g0 f).data = f ++ [',', ' ', upperChar g0, '.'] := rfl

theorem simpleFmt_ne_empty (g0 : Char) (f : List Char) :
    (simpleFmt g0 f).data.isEmpty = false := by
  rw [simpleFmt_data]
  cases f <;> rfl

theorem upperChar_toNat_letter {c : Char} (h : isAsciiLetter c = true) :
    65 ≤ (upperChar c).toNat ∧ (upperChar c).toNat ≤ 90 := by
  simp only [isAsciiLetter, isAsciiUpper, isAsciiLower, Bool.or_eq_true, Bool.and_eq_true,
    decide_eq_true_eq] at h
  unfold upperChar
  by_cases hl : isAsciiLower c = true
  · rw [if_pos hl]
    simp only [isAsciiLower, Bool.and_eq_true, decide_eq_true_eq] at hl
    rw [char_toNat_ofNat_valid (by left; omega)]
    omega
  · rw [if_neg hl]
    simp only [isAsciiLower, Bool.and_eq_true, decide_eq_true_eq] at hl
    omega

theorem lowerChar_ne_bar {c : Char} (h : c.toNat ≠ 124) : lowerChar c ≠ '|' := by
  rcases lowerChar_cases c with ⟨heq, h65, h90⟩ | heq
  · intro hc
    have : (lowerChar c).toNat = 124 := by rw [hc]; decide
    omega
  · rw [heq]
    intro hc
    subst hc
    exact h (by decide)

theorem simpleFmt_no_bar {g0 : Char} {f : List Char}
    (hg : isAsciiLetter g0 = true) (hfc : ∀ c ∈ f, isAsciiLetter c = true) :
    ∀ c ∈ lowerL (simpleFmt g0 f).data, c ≠ '|' := by
  intro c hc
  rw [simpleFmt_data] at hc
  rcases List.mem_map.mp hc with ⟨c1, hc1, rfl⟩
  rcases List.mem_append.mp hc1 with hc1 | hc1
  · apply lowerChar_ne_bar
    have := hfc c1 hc1
    simp only [isAsciiLetter, isAsciiUpper, isAsciiLower, Bool.or_eq_true, Bool.and_eq_true,
      decide_eq_true_eq] at this
    omega
  · rcases List.mem_cons.mp hc1 with rfl | hc1
    · decide
    rcases List.mem_cons.mp hc1 with rfl | hc1
    · decide
    rcases List.mem_cons.mp hc1 with rfl | hc1
    · apply lowerChar_ne_bar
      have := upperChar_toNat_letter hg
      omega
    rcases List.mem_cons.mp hc1 with rfl | hc1
    · decide
    · simp at hc1

theorem lowerL_key_split (F : List Char) (n : List Char) :
    lowerL (F ++ "||".data ++ n) = lowerL F ++ '|' :: '|' :: lowerL n := by
  unfold lowerL
  have hbar : lowerChar '|' = '|' := by decide
  show List.map lowerChar (F ++ ['|', '|'] ++ n) = _
  simp [List.map_append, List.append_assoc, hbar]

theorem pairKey_extract {g0 g0' : Char} {f f' : List Char} {n n' : String}
    (hg : isAsciiLetter g0 = true) (hfc : ∀ c ∈ f, isAsciiLetter c = true)
    (hg' : isAsciiLetter g0' = true) (hfc' : ∀ c ∈ f', isAsciiLetter c = true)
    (he : lowerL ((simpleFmt g0 f).data ++ "||".data ++ n.data) =
      lowerL ((simpleFmt g0' f').data ++ "||".data ++ n'.data)) :
    lowerL (simpleFmt g0 f).data = lowerL (simpleFmt g0' f').data := by
  rw [lowerL_key_split, lowerL_key_split] at he
  have h1 : (lowerL (simpleFmt g0 f).data ++ '|' :: '|' :: lowerL n.data).takeWhile
      (fun c => !(c = '|' : Bool)) = lowerL (simpleFmt g0 f).data := by
    apply takeWhile_append_cons
    · intro c hc
      simp only [Bool.not_eq_eq_eq_not, Bool.not_true]
      exact decide_eq_false (simpleFmt_no_bar hg hfc c hc)
    · simp
  have h2 : (lowerL (simpleFmt g0' f').data ++ '|' :: '|' :: lowerL n'.data).takeWhile
      (fun c => !(c = '|' : Bool)) = lowerL (simpleFmt g0' f').data := by
    apply takeWhile_append_cons
    · intro c hc
      simp only [Bool.not_eq_eq_eq_not, Bool.not_true]
      exact decide_eq_false (simpleFmt_no_bar hg' hfc' c hc)
    · simp
  rw [← h1, ← h2, he]

set_option maxHeartbeats 2000000 in
theorem dedup_agree_go (names : List String) : ∀ (sPair : List String) (sFmt : List (List Char)),
    (∀ n ∈ names, ∃ g0 gt f, SimpleName g0 gt f n) →
    (∀ n ∈ names, ∀ g0 gt f, SimpleName g0 gt f n →
      (⟨lowerL ((simpleFmt g0 f).data ++ "||".data ++ n.data)⟩ : String) ∈ sPair →
      lowerL (simpleFmt g0 f).data ∈ sFmt) →
    dedupByLowerGo sFmt
      ((parseAuthorListGo false "" sPair names).map formatApaAuthorFromStructured) =
      dedupByLowerGo sFmt (names.map Script.formatApaAuthor) := by
  induction names with
  | nil => intro _ _ _ _; rfl
  | cons n rest ih =>
    intro sPair sFmt hs hinv
    obtain ⟨g0, gt, f, hsn⟩ := hs n (by simp)
    have hsn2 := hsn
    obtain ⟨hdata, hf, hg, hfc, hstrip, hcorp, hsfx, hpart⟩ := hsn2
    have hparse := parseAuthorName_simple hsn
    have hnorm := normalizeCandidate_simple hsn
    have hscript := script_formatApaAuthor_simple hsn
    have hfmtA : formatApaAuthorFromStructured (mkSimpleAuthor g0 gt f n) = simpleFmt g0 f := by
      unfold mkSimpleAuthor
      exact fmt_structured_simple hstrip hf hfc hg
    have hkey : (⟨lowerL ((mkSimpleAuthor g0 gt f n).formattedApa.data ++ "||".data ++
        (mkSimpleAuthor g0 gt f n).raw.data)⟩ : String) =
        ⟨lowerL ((simpleFmt g0 f).data ++ "||".data ++ n.data)⟩ := rfl
    have hskip : ∀ tail : List String, lowerL (simpleFmt g0 f).data ∈ sFmt →
        dedupByLowerGo sFmt (simpleFmt g0 f :: tail) = dedupByLowerGo sFmt tail := by
      intro tail hfm
      conv_lhs => rw [dedupByLowerGo]
      rw [if_neg (by rw [simpleFmt_ne_empty]; exact Bool.false_ne_true),
        if_pos (by simpa [List.contains, List.elem_eq_mem] using hfm)]
    have hkeep : ∀ tail : List String, ¬ (lowerL (simpleFmt g0 f).data ∈ sFmt) →
        dedupByLowerGo sFmt (simpleFmt g0 f :: tail) =
          simpleFmt g0 f :: dedupByLowerGo (lowerL (simpleFmt g0 f).data :: sFmt) tail := by
      intro tail hfm
      conv_lhs => rw [dedupByLowerGo]
      rw [if_neg (by rw [simpleFmt_ne_empty]; exact Bool.false_ne_true),
        if_neg (by simpa [List.contains, List.elem_eq_mem] using hfm)]
    simp only [parseAuthorListGo, hparse, hnorm, List.map_cons, hscript, hkey]
    by_cases hk : sPair.contains
        (⟨lowerL ((simpleFmt g0 f).data ++ "||".data ++ n.data)⟩ : String) = true
    · rw [if_pos hk]
      have hmem : (⟨lowerL ((simpleFmt g0 f).data ++ "||".data ++ n.data)⟩ : String) ∈ sPair := by
        simpa [List.contains, List.elem_eq_mem] using hk
      have hfmem : lowerL (simpleFmt g0 f).data ∈ sFmt := hinv n (by simp) g0 gt f hsn hmem
      rw [hskip _ hfmem]
      exact ih sPair sFmt (fun m hm => hs m (by simp [hm]))
        (fun m hm => hinv m (by simp [hm]))
    · rw [if_neg hk]
      simp only [List.map_cons, hfmtA]
      by_cases hfm : lowerL (simpleFmt g0 f).data ∈ sFmt
      · rw [hskip _ hfm, hskip _ hfm]
        apply ih
        · exact fun m hm => hs m (by simp [hm])
        · intro m hm g0m gtm fm hsm hmemm
          rcases List.mem_cons.mp hmemm with heq | hmemm
          · have hsm2 := hsm
            obtain ⟨_, _, hgm, hfcm, _, _, _, _⟩ := hsm2
            have hFeq := pairKey_extract (hgm g0m (by simp)) hfcm (hg g0 (by simp)) hfc
              (congrArg String.data heq)
            rw [hFeq]
            exact hfm
          · exact hinv m (by simp [hm]) g0m gtm fm hsm hmemm
      · rw [hkeep _ hfm, hkeep _ hfm]
        congr 1
        apply ih
        · exact fun m hm => hs m (by simp [hm])
        · intro m hm g0m gtm fm hsm hmemm
          rcases List.mem_cons.mp hmemm with heq | hmemm
          · have hsm2 := hsm
            obtain ⟨_, _, hgm, hfcm, _, _, _, _⟩ := hsm2
            have hFeq := pairKey_extract (hgm g0m (by simp)) hfcm (hg g0 (by simp)) hfc
              (congrArg String.data heq)
            rw [hFeq]
            exact List.mem_cons_self _ _
          · exact List.mem_cons_of_mem _ (hinv m (by simp [hm]) g0m gtm fm hsm hmemm)

/-- C9, amended: the two `formatApaAuthors` copies agree on every list of
plain "Given Family" author names (two non-empty ASCII-letter tokens, no
comma, no honorific or degree affix, not corporate, no generational suffix,
the given token not a family particle).  On general names they disagree
(see the counterexample). -/
theorem formatApaAuthors_agree_on_simple_names (names : List String)
    (h : ∀ n ∈ names, ∃ g0 gt f, SimpleName g0 gt f n) :
    Script.formatApaAuthors names = P1.formatApaAuthors names := by
  unfold Script.formatApaAuthors P1.formatApaAuthors formatApaAuthorsFromStructured
    parseAuthorList
  exact congrArg joinApaList
    (dedup_agree_go names [] [] h (fun m hm g0 gt f _ hmem => absurd hmem (by simp))).symm

/-- Witness for the amended C9 on a concrete two-name list. -/
theorem formatApaAuthors_agree_on_simple_names_witness :
    Script.formatApaAuthors ["John Smith", "Mary Jones"] =
      P1.formatApaAuthors ["John Smith", "Mary Jones"] := by
  apply formatApaAuthors_agree_on_simple_names
  intro n hn
  rcases List.mem_cons.mp hn with rfl | hn
  · exact ⟨'J', "ohn".data, "Smith".data,
      by decide, by decide, by decide, by decide, by decide, by decide, by decide, by decide⟩
  rcases List.mem_cons.mp hn with rfl | hn
  · exact ⟨'M', "ary".data, "Jones".data,
      by decide, by decide, by decide, by decide, by decide, by decide, by decide, by decide⟩
  · simp at hn

/-! ### Article-type classification (`normalizeArticleTypeValue`,
`classifyArticleType`, identical in both source copies) -/

structure TypeHint where
  value : String
  sourceLabel : String
deriving DecidableEq, Repr

structure Classification where
  articleType : String
  ingestDecision : String
  ingestReason : String
  articleTypeClassificationSource : String
  articleTypeMatchedHint : String
deriving DecidableEq, Repr

def INCLUDE_ARTICLE_TYPES : List String :=
  ["research-article", "research-paper", "editorial"]

def EXCLUDE_ARTICLE_TYPES : List String :=
  ["book-review", "media-review", "discussion", "commentary", "corrigendum", "erratum",
   "retraction", "interview", "call-for-papers", "announcement", "news"]

def eatWsStar (l : List Char) : List Char := l.dropWhile isWsChar

/-- `w\b` at the current position. -/
def matchWordB (w : List Char) (l : List Char) : Bool :=
  match eatCI w l with
  | some r => boundaryAfter r
  | none => false

/-- `ws?\b` at the current position. -/
def matchWordOptSB (w : List Char) (l : List Char) : Bool :=
  match eatCI w l with
  | some r =>
    boundaryAfter r ||
      (match eatCI ['s'] r with
       | some r2 => boundaryAfter r2
       | none => false)
  | none => false

/-- `w1\s*w2\b` at the current position. -/
def matchPhrase2B (w1 w2 : List Char) (l : List Char) : Bool :=
  match eatCI w1 l with
  | some r => matchWordB w2 (eatWsStar r)
  | none => false

/-- `w1\s*w2` at the current position (no trailing boundary). -/
def matchPhrase2NoB (w1 w2 : List Char) (l : List Char) : Bool :=
  match eatCI w1 l with
  | some r => (eatCI w2 (eatWsStar r)).isSome
  | none => false

/-- `w1\s*w2\s*w3s?\b` at the current position. -/
def matchPhrase3OptSB (w1 w2 w3 : List Char) (l : List Char) : Bool :=
  match eatCI w1 l with
  | some r =>
    match eatCI w2 (eatWsStar r) with
    | some r2 => matchWordOptSB w3 (eatWsStar r2)
    | none => false
  | none => false

/-- `/\beditorial\s*(board|data)\b/i` as a substring test. -/
def testEditorialBoardData (s : List Char) : Bool :=
  scanBW (fun l =>
    match eatCI "editorial".data l with
    | some r => matchWordB "board".data (eatWsStar r) || matchWordB "data".data (eatWsStar r)
    | none => false) false s

/-- `/(book\s*review|media\s*review)/i` (no word boundaries). -/
def testBookMediaReview (s : List Char) : Bool :=
  scanAny (fun l =>
    matchPhrase2NoB "book".data "review".data l ||
    matchPhrase2NoB "media".data "review".data l) s

/-- `/\b(editorial|from the editors?)\b/i`. -/
def testEditorial (s : List Char) : Bool :=
  scanBW (fun l =>
    matchWordB "editorial".data l || matchWordOptSB "from the editor".data l) false s

/-- `/\b(commentary|perspective|opinion)\b/i`. -/
def testCommentary (s : List Char) : Bool :=
  scanBW (fun l =>
    matchWordB "commentary".data l || matchWordB "perspective".data l ||
    matchWordB "opinion".data l) false s

/-- `/\bcall\s*for\s*papers?\b/i`. -/
def testCallForPapers (s : List Char) : Bool :=
  scanBW (matchPhrase3OptSB "call".data "for".data "paper".data) false s

/-- `/\b(announcement|announcements)\b/i`. -/
def testAnnouncement (s : List Char) : Bool :=
  scanBW (matchWordOptSB "announcement".data) false s

/-- `/\b(research\s*paper|research\s*article|original\s*article)\b/i`. -/
def testResearchPhrase (s : List Char) : Bool :=
  scanBW (fun l =>
    matchPhrase2B "research".data "paper".data l ||
    matchPhrase2B "research".data "article".data l ||
    matchPhrase2B "original".data "article".data l) false s

/-- `/\b(scholarlyarticle|journalarticle)\b/i`. -/
def testScholarly (s : List Char) : Bool :=
  scanBW (fun l =>
    matchWordB "scholarlyarticle".data l || matchWordB "journalarticle".data l) false s

def testWordPair (w1 w2 : List Char) (s : List Char) : Bool :=
  scanBW (fun l => matchWordB w1 l || matchWordB w2 l) false s

/-- The per-policy override table `POLICY_ARTICLE_TYPE_OVERRIDES`
(`springer_link` maps `/\boriginal\s*paper\b/i` and
`/\boriginal\s*article\b/i` to `research-article`). -/
def policyOverrideHit (policyName : String) (text : List Char) : Option String :=
  if (⟨lowerL policyName.data⟩ : String) = "springer_link" then
    if scanBW (matchPhrase2B "original".data "paper".data) false text then
      some "research-article"
    else if scanBW (matchPhrase2B "original".data "article".data) false text then
      some "research-article"
    else none
  else none

/-- `normalizeArticleTypeValue(value, { policyName, allowPolicyOverrides })`:
returns `(normalized, matchedHint)`. -/
def normalizeArticleTypeValue (value policyName : String) (allowPolicyOverrides : Bool) :
    String × String :=
  let text := lowerL (cleanTextL value.data)
  if text.isEmpty then ("", "")
  else
    match (if allowPolicyOverrides then policyOverrideHit policyName text else none) with
    | some t => (t, cleanText value)
    | none =>
      if testEditorialBoardData text then ("announcement", cleanText value)
      else if testBookMediaReview text then ("book-review", cleanText value)
      else if testEditorial text then ("editorial", cleanText value)
      else if hasWordCI "discussion".data text then ("discussion", cleanText value)
      else if testCommentary text then ("commentary", cleanText value)
      else if testWordPair "corrigendum".data "corrigenda".data text then
        ("corrigendum", cleanText value)
      else if testWordPair "erratum".data "errata".data text then ("erratum", cleanText value)
      else if testWordPair "retraction".data "withdrawal".data text then
        ("retraction", cleanText value)
      else if hasWordCI "interview".data text then ("interview", cleanText value)
      else if testCallForPapers text then ("call-for-papers", cleanText value)
      else if testAnnouncement text then ("announcement", cleanText value)
      else if hasWordCI "news".data text then ("news", cleanText value)
      else if testResearchPhrase text then ("research-article", cleanText value)
      else if testScholarly text then ("research-article", cleanText value)
      else if hasWordCI "article".data text then ("research-article", cleanText value)
      else ("", "")

def hintKey (sourceLabel value : String) : String :=
  ⟨sourceLabel.data ++ '\x00' :: value.data⟩

/-- The hint-collection phase of `classifyArticleType`: clean, default the
source label, and deduplicate by `label\x00value` against a shared seen
set. -/
def collectHintsGo (dflt : String) (seen : List String) :
    List TypeHint → List TypeHint × List String
  | [] => ([], seen)
  | h :: rest =>
    let value := cleanText h.value
    if value.data.isEmpty then collectHintsGo dflt seen rest
    else
      let s0 := if h.sourceLabel.data.isEmpty then dflt else h.sourceLabel
      let c0 := cleanText s0
      let lbl := if c0.data.isEmpty then dflt else c0
      let key := hintKey lbl value
      if seen.contains key then collectHintsGo dflt seen rest
      else
        let rec2 := collectHintsGo dflt (key :: seen) rest
        (⟨value, lbl⟩ :: rec2.1, rec2.2)

/-- `classifyOne(hint, allowPolicyOverrides)` inside `classifyArticleType`. -/
def classifyOne (policyName : String) (allowOverrides : Bool) (h : TypeHint) :
    Option Classification :=
  let res := normalizeArticleTypeValue h.value policyName allowOverrides
  if res.1.data.isEmpty then none
  else if EXCLUDE_ARTICLE_TYPES.contains res.1 then
    some { articleType := res.1, ingestDecision := "exclude",
           ingestReason := ⟨"excluded_by_type:".data ++ res.1.data⟩,
           articleTypeClassificationSource := h.sourceLabel,
           articleTypeMatchedHint := if res.2.data.isEmpty then h.value else res.2 }
  else if INCLUDE_ARTICLE_TYPES.contains res.1 then
    some { articleType := res.1, ingestDecision := "include",
           ingestReason := ⟨"included_by_type:".data ++ res.1.data⟩,
           articleTypeClassificationSource := h.sourceLabel,
           articleTypeMatchedHint := if res.2.data.isEmpty then h.value else res.2 }
  else none

def firstClassifiedHint (policyName : String) (allowOverrides : Bool) :
    List TypeHint → Option Classification
  | [] => none
  | h :: rest =>
    match classifyOne policyName allowOverrides h with
    | some c => some c
    | none => firstClassifiedHint policyName allowOverrides rest

/-- `classifyArticleType({ policyName, rawTypeHints, semanticHints })`. -/
def classifyArticleType (policyName : String) (rawTypeHints semanticHints : List TypeHint) :
    Classification :=
  let collectedRaw := collectHintsGo "publisher_raw_type" [] rawTypeHints
  let collectedSem := collectHintsGo "title_heuristic" collectedRaw.2 semanticHints
  match firstClassifiedHint policyName true collectedRaw.1 with
  | some c => c
  | none =>
    match firstClassifiedHint policyName false collectedSem.1 with
    | some c => c
    | none =>
      { articleType := "[Not verified]", ingestDecision := "not_verified",
        ingestReason := if collectedRaw.1.isEmpty then "article_type_unclear"
          else "article_type_unmapped_raw_hint",
        articleTypeClassificationSource := "none",
        articleTypeMatchedHint := ((collectedRaw.1.head?).map TypeHint.value).getD "" }

/-! ### Abstract selection

`stripHtmlTags`, `decodeHtmlEntities`, `normalizeAbstractText` and
`chooseBestAbstract` from the main script (curl/lightweight extraction
path), and the in-page `chooseBestAbstractLocal` closure from
`extractMetadata`'s `page.evaluate` body (browser path).  JS strings are
modelled as `List Char` (code points); `String.fromCodePoint` on a
surrogate code point, which JS represents as a lone surrogate unit, is
approximated by `Char.ofNat`'s fallback, and the `RangeError` it throws
above 0x10FFFF is modelled as `none`. -/

def tryPatsCI : List (List Char) → List Char → Option (List Char)
  | [], _ => none
  | p :: ps, l =>
    match eatCI p l with
    | some r => some r
    | none => tryPatsCI ps l

/-- `String.prototype.replace` with a global case-insensitive literal
alternation and a fixed replacement. -/
def replaceLitGo (pats : List (List Char)) (rep : List Char) : Nat → List Char → List Char
  | _, [] => []
  | 0, l => l
  | Nat.succ n, c :: cs =>
    match tryPatsCI pats (c :: cs) with
    | some r => rep ++ replaceLitGo pats rep n r
    | none => c :: replaceLitGo pats rep n cs

def replaceLit (pats : List (List Char)) (rep : List Char) (l : List Char) : List Char :=
  replaceLitGo pats rep l.length l

def isHexDigitChar (c : Char) : Bool :=
  isDigitChar c || (97 ≤ (lowerChar c).toNat && (lowerChar c).toNat ≤ 102)

def hexDigitVal (c : Char) : Nat :=
  if isDigitChar c then c.toNat - 48 else (lowerChar c).toNat - 87

def hexRunVal (l : List Char) : Nat :=
  l.foldl (fun acc c => acc * 16 + hexDigitVal c) 0

def decRunVal (l : List Char) : Nat :=
  l.foldl (fun acc c => acc * 10 + (c.toNat - 48)) 0

/-- `String.fromCodePoint`: throws `RangeError` (here `none`) above
0x10FFFF. -/
def fromCodePointM (n : Nat) : Option Char :=
  if n < 1114112 then some (Char.ofNat n) else none

/-- One pass replacing `&#x([0-9a-f]+);` (`hex = true`) or `&#(\d+);`
(`hex = false`) by the named code point. -/
def decodeNumEntitiesGo (hex : Bool) : Nat → List Char → Option (List Char)
  | _, [] => some []
  | 0, l => some l
  | Nat.succ n, c :: cs =>
    let noMatch : Option (List Char) :=
      (decodeNumEntitiesGo hex n cs).map (fun t => c :: t)
    if c = '&' then
      match cs with
      | '#' :: rest =>
        let body : Option (List Char) :=
          if hex then
            (match rest with
             | x :: rest2 => if lowerChar x = 'x' then some rest2 else none
             | [] => none)
          else some rest
        match body with
        | none => noMatch
        | some rest2 =>
          let dig := if hex then isHexDigitChar else isDigitChar
          let digits := rest2.takeWhile dig
          let after := rest2.dropWhile dig
          if digits.isEmpty then noMatch
          else
            match after with
            | ';' :: post =>
              let code := if hex then hexRunVal digits else decRunVal digits
              match fromCodePointM code with
              | none => none
              | some ch => (decodeNumEntitiesGo hex n post).map (fun t => ch :: t)
            | _ => noMatch
      | _ => noMatch
    else noMatch

/-- `decodeHtmlEntities`: the six sequential `.replace` passes; `none`
models the `RangeError` that `String.fromCodePoint` throws on an
out-of-range numeric entity. -/
def decodeHtmlEntities (l : List Char) : Option (List Char) :=
  let s1 := replaceLit ["&amp;".data] "&".data l
  let s2 := replaceLit ["&lt;".data] "<".data s1
  let s3 := replaceLit ["&gt;".data] ">".data s2
  let s4 := replaceLit ["&quot;".data] "\"".data s3
  let s5 := replaceLit ["&#39;".data, "&apos;".data] "\x27".data s4
  match decodeNumEntitiesGo true s5.length s5 with
  | none => none
  | some s6 => decodeNumEntitiesGo false s6.length s6

/-- Scan for the closing literal of a lazy `[\s\S]*?` block; returns the
suffix after the first case-insensitive occurrence. -/
def findCloseGo (cls : List Char) : Nat → List Char → Option (List Char)
  | _, [] => none
  | 0, _ => none
  | Nat.succ n, c :: cs =>
    match eatCI cls (c :: cs) with
    | some r => some r
    | none => findCloseGo cls n cs

/-- `/<script[\s\S]*?<\/script>/gi`-style block removal (replacement
" "). -/
def stripBlocksGo (opn cls : List Char) : Nat → List Char → List Char
  | _, [] => []
  | 0, l => l
  | Nat.succ n, c :: cs =>
    match eatCI opn (c :: cs) with
    | some r =>
      match findCloseGo cls r.length r with
      | some post => ' ' :: stripBlocksGo opn cls n post
      | none => c :: stripBlocksGo opn cls n cs
    | none => c :: stripBlocksGo opn cls n cs

/-- `/<[^>]+>/g` replaced by " ". -/
def stripTagsGo : Nat → List Char → List Char
  | _, [] => []
  | 0, l => l
  | Nat.succ n, c :: cs =>
    if c = '<' then
      let body := cs.takeWhile (fun d => !(d = '>'))
      let rest := cs.dropWhile (fun d => !(d = '>'))
      match rest with
      | '>' :: post =>
        if body.isEmpty then c :: stripTagsGo n cs
        else ' ' :: stripTagsGo n post
      | _ => c :: stripTagsGo n cs
    else c :: stripTagsGo n cs

def stripHtmlTags (l : List Char) : List Char :=
  let s1 := stripBlocksGo "<script".data "</script>".data l.length l
  let s2 := stripBlocksGo "<style".data "</style>".data s1.length s1
  stripTagsGo s2.length s2

/-- The anchored prefix strip `/^abstract[:\s-]*/i` shared by both
normalizers. -/
def stripAbstractHead (l : List Char) : List Char :=
  match eatCI "abstract".data l with
  | some r => r.dropWhile (fun c => c = ':' || isWsChar c || c = '-')
  | none => l

/-- `normalizeAbstractText`; `none` propagates the `decodeHtmlEntities`
throw. -/
def normalizeAbstractText (value : String) : Option String :=
  (decodeHtmlEntities (stripHtmlTags value.data)).map fun dec =>
    let cleaned := cleanTextL dec
    if cleaned.isEmpty then ⟨[]⟩
    else ⟨trimL (stripAbstractHead cleaned)⟩

/-- `/(all rights reserved|cookie|javascript|privacy policy)/i.test`. -/
def hasBoilerplate (s : List Char) : Bool :=
  scanAny (fun l =>
    (eatCI "all rights reserved".data l).isSome ||
    (eatCI "cookie".data l).isSome ||
    (eatCI "javascript".data l).isSome ||
    (eatCI "privacy policy".data l).isSome) s

/-- Stable sort with a JS comparator (`cmp a b ≤ 0` puts `a` first;
`Array.prototype.sort` is stable). -/
def insSorted {α : Type} (cmp : α → α → Int) (x : α) : List α → List α
  | [] => [x]
  | y :: ys => if cmp x y ≤ 0 then x :: y :: ys else y :: insSorted cmp x ys

def sortJS {α : Type} (cmp : α → α → Int) : List α → List α
  | [] => []
  | x :: xs => insSorted cmp x (sortJS cmp xs)

/-- JS `a || b` on strings (empty string is falsy). -/
def jsOrS (a b : String) : String := if a.data.isEmpty then b else a

def lenCmp (a b : String) : Int := (b.data.length : Int) - a.data.length

def traverseNorm : List String → Option (List String)
  | [] => some []
  | x :: xs =>
    match normalizeAbstractText x with
    | none => none
    | some y => (traverseNorm xs).map (fun t => y :: t)

/-- `chooseBestAbstract(candidates)` (curl/lightweight path): normalize,
dedupe, keep texts of length ≥ 80, drop boilerplate, pick the longest. -/
def chooseBestAbstract (candidates : List String) : Option String :=
  (traverseNorm candidates).map fun mapped =>
    let normalized := uniqueStrings mapped
    let filtered := normalized.filter (fun t => 80 ≤ t.data.length)
    if filtered.isEmpty then (normalized.head?).getD ""
    else
      let scored := sortJS lenCmp (filtered.filter (fun t => !(hasBoilerplate t.data)))
      jsOrS (jsOrS ((scored.head?).getD "") ((filtered.head?).getD "")) ""

/-- The per-candidate normalization of the in-page
`chooseBestAbstractLocal` closure. -/
def localNormalizeOne (raw : String) : String :=
  ⟨trimL (stripAbstractHead (collapseWs raw.data))⟩

def localCollect (seen : List (List Char)) : List String → List String
  | [] => []
  | r :: rs =>
    let cleaned := localNormalizeOne r
    if cleaned.data.isEmpty then localCollect seen rs
    else
      let key := lowerL cleaned.data
      if seen.contains key then localCollect seen rs
      else cleaned :: localCollect (key :: seen) rs

/-- `/\.\.\.$/.test`. -/
def endsWithEllipsis (l : List Char) : Bool :=
  match l.reverse with
  | '.' :: '.' :: '.' :: _ => true
  | _ => false

/-- `/^click on the article title to read more\.?$/i.test`. -/
def isClickPromptArticle (l : List Char) : Bool :=
  match eatCI "click on the article title to read more".data l with
  | some r =>
    match r with
    | [] => true
    | ['.'] => true
    | _ => false
  | none => false

/-- `/^click on the title to browse this issue\.?$/i.test`. -/
def isClickPromptIssue (l : List Char) : Bool :=
  match eatCI "click on the title to browse this issue".data l with
  | some r =>
    match r with
    | [] => true
    | ['.'] => true
    | _ => false
  | none => false

/-- The in-page scorer: length, −120 for a trailing ellipsis, −200 for
each click-prompt boilerplate line. -/
def localScore (t : String) : Int :=
  (t.data.length : Int) -
    (if endsWithEllipsis t.data then 120 else 0) -
    (if isClickPromptArticle t.data then 200 else 0) -
    (if isClickPromptIssue t.data then 200 else 0)

/-- `b.score - a.score || b.text.length - a.text.length`. -/
def localCmp (a b : String × Int) : Int :=
  if b.2 - a.2 = 0 then (b.1.data.length : Int) - a.1.data.length else b.2 - a.2

/-- `chooseBestAbstractLocal(candidates)` (browser path, inside
`page.evaluate`). -/
def chooseBestAbstractLocal (candidates : List String) : String :=
  let normalized := localCollect [] candidates
  if normalized.isEmpty then ⟨[]⟩
  else
    let filtered := normalized.filter (fun t => !(hasBoilerplate t.data))
    let pool := if filtered.isEmpty then normalized else filtered
    let scored := sortJS localCmp (pool.map (fun t => (t, localScore t)))
    jsOrS (((scored.head?).map Prod.fst).getD "") ""

/-- Concrete candidates: a 251-character DOM abstract and a 400-character
meta teaser ending in "...". -/
def domSample : String := ⟨List.replicate 251 'a'⟩

def metaSample : String := ⟨List.replicate 397 'b' ++ ['.', '.', '.']⟩

/-- A 100-character plain candidate and a 203-character teaser ending in
"...", used as witnesses. -/
def metaPlain : String := ⟨List.replicate 100 'c'⟩

def metaShort : String := ⟨List.replicate 200 'b' ++ ['.', '.', '.']⟩

/-! ### URL model

A simplified model of the WHATWG `URL` constructor used by the script,
covering the shapes that appear in the sources: absolute URLs
`scheme://host[:port][/path][?query][#fragment]` and opaque-path URLs
`scheme:rest` for non-special schemes (`mailto:`, `javascript:`, ...).
`none` models a thrown `TypeError`.  Deviations from the full standard are
deliberate and fixed: hosts are lowercased verbatim (no IDNA or percent
normalization), paths and queries are kept verbatim (no percent
re-encoding or dot-segment removal), special schemes written without `//`
are rejected, and default ports are not elided from origins. -/

structure UrlParts where
  scheme : String
  host : String
  port : String
  path : String
  query : String
  frag : String
deriving DecidableEq, Repr

def specialSchemes : List String := ["http", "https", "ws", "wss", "ftp", "file"]

def isSchemeRestChar (c : Char) : Bool :=
  isAsciiLetter c || isDigitChar c || c.toNat = 43 || c.toNat = 45 || c.toNat = 46

def isAuthEndChar (c : Char) : Bool := c = '/' || c = '?' || c = '#'

def isPathEndChar (c : Char) : Bool := c = '?' || c = '#'

/-- Split `?query#frag` off the remainder after authority/path. -/
def splitQueryFrag : List Char → List Char × List Char
  | '?' :: qs =>
    (qs.takeWhile (fun d => !(d = '#')),
      match qs.dropWhile (fun d => !(d = '#')) with
      | '#' :: hs => hs
      | _ => [])
  | '#' :: hs => ([], hs)
  | _ => ([], [])

def parseURL (raw : String) : Option UrlParts :=
  match raw.data with
  | [] => none
  | c :: rest =>
    if !(isAsciiLetter c) then none
    else
      let schemeTail := rest.takeWhile isSchemeRestChar
      match rest.dropWhile isSchemeRestChar with
      | ':' :: after =>
        let scheme : String := ⟨lowerL (c :: schemeTail)⟩
        match after with
        | '/' :: '/' :: rest2 =>
          let auth := rest2.takeWhile (fun d => !(isAuthEndChar d))
          let tail := rest2.dropWhile (fun d => !(isAuthEndChar d))
          let host := auth.takeWhile (fun d => !(d = ':'))
          let portOk : Option String :=
            match auth.dropWhile (fun d => !(d = ':')) with
            | [] => some ""
            | _ :: ds => if ds.all isDigitChar then some ⟨ds⟩ else none
          match portOk with
          | none => none
          | some p =>
            if host.isEmpty && !(scheme = "file") then none
            else
              let path := tail.takeWhile (fun d => !(isPathEndChar d))
              let qf := splitQueryFrag (tail.dropWhile (fun d => !(isPathEndChar d)))
              some { scheme := scheme, host := ⟨lowerL host⟩, port := p,
                     path := if path.isEmpty then
                         (if specialSchemes.contains scheme then "/" else "") else ⟨path⟩,
                     query := ⟨qf.1⟩, frag := ⟨qf.2⟩ }
        | _ =>
          if specialSchemes.contains scheme then none
          else
            let path := after.takeWhile (fun d => !(isPathEndChar d))
            let qf := splitQueryFrag (after.dropWhile (fun d => !(isPathEndChar d)))
            some { scheme := scheme, host := "", port := "", path := ⟨path⟩,
                   query := ⟨qf.1⟩, frag := ⟨qf.2⟩ }
      | _ => none

/-- `u.origin` ("null" for non-tuple origins such as `file:`). -/
def urlOrigin (u : UrlParts) : String :=
  if u.scheme = "http" || u.scheme = "https" || u.scheme = "ws" || u.scheme = "wss" ||
      u.scheme = "ftp" then
    ⟨u.scheme.data ++ "://".data ++ u.host.data ++
      (if u.port.data.isEmpty then [] else ':' :: u.port.data)⟩
  else "null"

/-- `u.protocol`. -/
def protocolOf (u : UrlParts) : String := ⟨u.scheme.data ++ [':']⟩

def hostForUrl (raw : String) : String :=
  match parseURL raw with
  | some u => u.host
  | none => ""

/-- `/(^|\.)dom$/` applied to an already-lowercased host. -/
def hostTailMatch (dom : String) (host : String) : Bool :=
  host = dom || (('.' :: dom.data).isSuffixOf host.data)

def TRACKING_HOSTS : List String :=
  ["el.aom.org", "el.wiley.com", "click.skem1.com", "lnk.springernature.com",
   "links.springernature.com", "link.mail.elsevier.com", "click.notification.elsevier.com"]

def isTrackingUrl (raw : String) : Bool :=
  TRACKING_HOSTS.any (fun d => hostTailMatch d (hostForUrl raw))

structure DomainPolicy where
  name : String
  hostDom : Option String
  protectedFlag : Bool
deriving DecidableEq, Repr

/-- `DOMAIN_POLICIES` (names, host patterns and the protected flag; the
abstract-selector lists play no role in the modelled behaviour). -/
def DOMAIN_POLICIES : List DomainPolicy :=
  [⟨"informs", some "pubsonline.informs.org", true⟩,
   ⟨"sage", some "journals.sagepub.com", true⟩,
   ⟨"wiley", some "onlinelibrary.wiley.com", true⟩,
   ⟨"springer_link", some "link.springer.com", true⟩,
   ⟨"sciencedirect", some "sciencedirect.com", true⟩,
   ⟨"oup", some "academic.oup.com", true⟩,
   ⟨"aom_atypon", some "journals.aom.org", true⟩,
   ⟨"doi", some "doi.org", false⟩,
   ⟨"default", none, false⟩]

def policyMatches (p : DomainPolicy) (host : String) : Bool :=
  match p.hostDom with
  | none => true
  | some d => hostTailMatch d host

def policyForUrl (raw : String) : DomainPolicy :=
  match DOMAIN_POLICIES.find? (fun p => policyMatches p (hostForUrl raw)) with
  | some p => p
  | none => ⟨"default", none, false⟩

/-- Case-sensitive substring test (`String.prototype.includes`). -/
def hasSub (pat : List Char) (s : List Char) : Bool :=
  scanAny (fun l => pat.isPrefixOf l) s

/-- Case-insensitive substring test (an unanchored `/lit/i`). -/
def hasSubCI (pat : List Char) (s : List Char) : Bool :=
  scanAny (fun l => startsWithCIL pat l) s

def maybeCanonicalArticleUrl (raw : String) : String :=
  match parseURL raw with
  | none => raw
  | some u =>
    if hasSub "/advance-article/doi/".data u.path.data ||
        hasSub "/article/doi/".data u.path.data then
      ⟨(urlOrigin u).data ++ u.path.data⟩
    else raw

def isScienceDirectLikeUrl (raw : String) : Bool :=
  hostTailMatch "sciencedirect.com" (hostForUrl raw) || hasSubCI "10.1016/".data raw.data

/-! #### Search params and run-scoped final-URL dedupe -/

def paramKV (seg : List Char) : List Char × List Char :=
  (seg.takeWhile (fun c => !(c = '=')),
    match seg.dropWhile (fun c => !(c = '=')) with
    | '=' :: v => v
    | _ => [])

def parseQueryParams (q : List Char) : List (List Char × List Char) :=
  ((splitOnChar '&' q).filter (fun s => !s.isEmpty)).map paramKV

def queryToString (ps : List (List Char × List Char)) : List Char :=
  List.intercalate ['&'] (ps.map (fun kv => kv.1 ++ '=' :: kv.2))

def paramsHasKey (k : String) (ps : List (List Char × List Char)) : Bool :=
  ps.any (fun kv => kv.1 = k.data)

def paramsGet (k : String) (ps : List (List Char × List Char)) : Option (List Char) :=
  (ps.find? (fun kv => kv.1 = k.data)).map Prod.snd

/-- `/^utm_/i`, `/^mc_/i`, `/^campaign$/i`, `/^source$/i` on a query key. -/
def isDropParamKey (k : List Char) : Bool :=
  startsWithCIL "utm_".data k || startsWithCIL "mc_".data k ||
  lowerL k = "campaign".data || lowerL k = "source".data

def normalizeFinalUrlForRunDedupe (raw : String) : String :=
  match parseURL (maybeCanonicalArticleUrl raw) with
  | none => ""
  | some u =>
    let kept := (parseQueryParams u.query.data).filter (fun kv => !(isDropParamKey kv.1))
    let qs := queryToString kept
    ⟨(urlOrigin u).data ++ u.path.data ++ (if qs.isEmpty then [] else '?' :: qs)⟩

/-- The run-shared `seenFinalUrls` set (`none` models the `null`
default). -/
abbrev SeenSet := Option (List String)

def shouldSkipDuplicateFinalUrl (seen : SeenSet) (raw input : String) : Bool :=
  match seen with
  | none => false
  | some s =>
    let key := normalizeFinalUrlForRunDedupe raw
    if key.data.isEmpty then false
    else if isTrackingUrl raw then false
    else if normalizeFinalUrlForRunDedupe input = key then false
    else s.contains key

def rememberFinalUrl (seen : SeenSet) (raw : String) : SeenSet :=
  match seen with
  | none => none
  | some s =>
    let key := normalizeFinalUrlForRunDedupe raw
    if key.data.isEmpty then some s else some (key :: s)

/-! #### Unsafe pre-navigation link classifiers -/

/-- The character class `[-_/?=&%]` of the alert-management href
patterns. -/
def inLinkClassChar (c : Char) : Bool :=
  c.toNat = 45 || c.toNat = 95 || c.toNat = 47 || c.toNat = 63 || c.toNat = 61 ||
  c.toNat = 38 || c.toNat = 37

/-- `/manage[-_\/?=&%]*alerts?/i` at the current position (the optional
`s` and the missing trailing boundary make the bare stem sufficient). -/
def hrefManageAlerts (l : List Char) : Bool :=
  match eatCI "manage".data l with
  | some r => (eatCI "alert".data (r.dropWhile inLinkClassChar)).isSome
  | none => false

def hrefAlertPrefs (l : List Char) : Bool :=
  match eatCI "alert".data l with
  | some r => (eatCI "preference".data (r.dropWhile inLinkClassChar)).isSome
  | none => false

/-- `/email[-_\/?=&%]*(notification[-_\/?=&%]*)?preferences?/i`; both
readings of the optional group are tried. -/
def hrefEmailPrefs (l : List Char) : Bool :=
  match eatCI "email".data l with
  | some r =>
    let r1 := r.dropWhile inLinkClassChar
    (match eatCI "notification".data r1 with
     | some r2 => (eatCI "preference".data (r2.dropWhile inLinkClassChar)).isSome
     | none => false) ||
    (eatCI "preference".data r1).isSome
  | none => false

def hrefNotifPrefs (l : List Char) : Bool :=
  match eatCI "notification".data l with
  | some r => (eatCI "preference".data (r.dropWhile inLinkClassChar)).isSome
  | none => false

/-- `\s+` (at least one whitespace character, consumed greedily). -/
def eatWs1 : List Char → Option (List Char)
  | [] => none
  | c :: cs => if isWsChar c then some (cs.dropWhile isWsChar) else none

/-- `/\bmanage\s+(my\s+)?alerts?\b/i` at the current position. -/
def textManageAlerts (l : List Char) : Bool :=
  match eatCI "manage".data l with
  | some r =>
    match eatWs1 r with
    | some r1 =>
      (match eatCI "my".data r1 with
       | some rm =>
         (match eatWs1 rm with
          | some r2 => matchWordOptSB "alert".data r2
          | none => false)
       | none => false) ||
      matchWordOptSB "alert".data r1
    | none => false
  | none => false

/-- `/\b(alert|email|notification)\s+preferences?\b/i` at the current
position. -/
def textPrefsPhrase (l : List Char) : Bool :=
  let prefAfter (w : List Char) : Bool :=
    match eatCI w l with
    | some r =>
      match eatWs1 r with
      | some r1 => matchWordOptSB "preference".data r1
      | none => false
    | none => false
  prefAfter "alert".data || prefAfter "email".data || prefAfter "notification".data

/-- `/\bmanage\s+preferences?\b/i` at the current position. -/
def textManagePrefs (l : List Char) : Bool :=
  match eatCI "manage".data l with
  | some r =>
    match eatWs1 r with
    | some r1 => matchWordOptSB "preference".data r1
    | none => false
  | none => false

def classifyUnsafeAlertManagementLink (rawUrl linkText : String) : Option String :=
  let urlLower := lowerL rawUrl.data
  let textLower := lowerL (cleanTextL linkText.data)
  if urlLower.isEmpty && textLower.isEmpty then none
  else if hasSubCI "unsubscribe".data urlLower || hasSubCI "removealert".data urlLower ||
      hasWordCI "unsubscribe".data textLower then
    some "alert_unsubscribe_link"
  else if scanAny hrefManageAlerts urlLower || scanAny hrefAlertPrefs urlLower ||
      scanAny hrefEmailPrefs urlLower || scanAny hrefNotifPrefs urlLower ||
      scanBW textManageAlerts false textLower || scanBW textPrefsPhrase false textLower ||
      scanBW textManagePrefs false textLower then
    some "alert_management_preferences_link"
  else none

/-- `classifyUnsupportedUrlScheme`: whitelists `http:`, `https:` and
`file:`; unparseable or protocol-relative values pass (`null`). -/
def classifyUnsupportedUrlScheme (rawUrl : String) : Option String :=
  let value := cleanText rawUrl
  if value.data.isEmpty then none
  else if value.data.take 2 = ['/', '/'] then none
  else
    match parseURL value with
    | none => none
    | some u =>
      let scheme := protocolOf u
      if scheme.data.isEmpty || scheme = "http:" || scheme = "https:" || scheme = "file:" then
        none
      else some "unsupported_url_scheme"

def classifyUnsafePreNavigationLink (rawUrl linkText : String) : Option String :=
  match classifyUnsafeAlertManagementLink rawUrl linkText with
  | some r => some r
  | none => classifyUnsupportedUrlScheme rawUrl

/-- `classifyKnownNonArticleLink`.  The host blocks mirror the source's
early returns; `some none` encodes an explicit `return null`, `none` a
fall-through to the next block. -/
def classifyKnownNonArticleLink (rawUrl : String) : Option String :=
  match parseURL rawUrl with
  | none => none
  | some u =>
    let host := u.host
    let pathName : List Char := if u.path.data.isEmpty then "/".data else u.path.data
    let ps := parseQueryParams u.query.data
    let aomBlock : Option (Option String) :=
      if hostTailMatch "journals.aom.org" host then
        if startsWithCIL "/doi/".data pathName then some none
        else if startsWithCIL "/action/removealert".data pathName then
          some (some "aom_alert_management_link")
        else if startsWithCIL "/action/showlogin".data pathName ||
            startsWithCIL "/s/login".data pathName then some (some "aom_login_link")
        else if startsWithCIL "/action/".data pathName then
          some (some "aom_non_article_action_link")
        else none
      else none
    match aomBlock with
    | some r => r
    | none =>
      if hostTailMatch "myaccount.aom.org" host then some "aom_account_link"
      else if hostTailMatch "aom.org" host && !(hostTailMatch "journals.aom.org" host) then
        some "aom_marketing_or_policy_link"
      else
        let wileyBlock : Option (Option String) :=
          if hostTailMatch "onlinelibrary.wiley.com" host then
            if startsWithCIL "/doi/".data pathName then some none
            else if startsWithCIL "/action/removealert".data pathName then
              some (some "wiley_alert_management_link")
            else if startsWithCIL "/action/".data pathName then
              some (some "wiley_non_article_action_link")
            else if startsWithCIL "/toc/".data pathName then
              some (some "wiley_toc_or_issue_link")
            else if startsWithCIL "/journal/".data pathName then
              some (some "wiley_journal_home_link")
            else if pathName = "/".data || pathName = [] then
              some (some "wiley_marketing_or_home_link")
            else none
          else none
        match wileyBlock with
        | some r => r
        | none =>
          let springerBlock : Option (Option String) :=
            if hostTailMatch "link.springer.com" host then
              if startsWithCIL "/article/".data pathName then some none
              else if startsWithCIL "/content/pdf/".data pathName ||
                  startsWithCIL "/content/html/".data pathName then
                some (some "springer_article_asset_link")
              else if startsWithCIL "/journal/".data pathName then
                (if scanAny (fun l =>
                      match eatCI "/volumes-and-issues".data l with
                      | some r => r.isEmpty || r.head? = some '/'
                      | none => false) pathName then
                  some (some "springer_toc_or_issue_link")
                else some (some "springer_journal_home_link"))
              else if startsWithCIL "/search".data pathName ||
                  startsWithCIL "/collections/".data pathName then
                some (some "springer_navigation_or_collection_link")
              else if startsWithCIL "/account/".data pathName ||
                  startsWithCIL "/myaccount/".data pathName then
                some (some "springer_account_or_preferences_link")
              else if paramsHasKey "error" ps || paramsHasKey "code" ps then
                some (some "springer_email_webview_link")
              else if pathName = "/".data || pathName = [] then
                some (some "springer_marketing_or_home_link")
              else none
            else none
          match springerBlock with
          | some r => r
          | none =>
            if hostTailMatch "mail.google.com" host &&
                paramsGet "view" ps = some "lg".data && paramsHasKey "permmsgid" ps then
              some "gmail_message_webview_link"
            else if hostTailMatch "atypon.com" host then some "technology_partner_link"
            else none

/-! ### Record construction -/

/-- The extraction payload produced in the page context (or by the
ScienceDirect HTML parser) and consumed by `buildRecordFromExtracted`. -/
structure Extracted where
  doiMeta : String := ""
  finalUrl : String := ""
  title : String := ""
  pageTitle : String := ""
  journal : String := ""
  publicationDate : String := ""
  authors : List String := []
  volume : String := ""
  issue : String := ""
  pageRange : String := ""
  abstractText : String := ""
  articleTypeHint : String := ""
  articleTypeMetaHint : String := ""
  articleTypeDomHint : String := ""
  articleTypeJsonLdHint : String := ""
deriving DecidableEq, Repr

/-- One entry of the accumulated per-attempt error diagnostics.  Fields
that a given push site does not set keep their defaults. -/
structure ErrEntry where
  method : String := ""
  attempt : Nat := 0
  rawTargetUrl : String := ""
  targetUrl : String := ""
  errorName : String := ""
  message : String := ""
  challengeSignals : List String := []
  trackingResolutionError : String := ""
  missingFields : List String := []
deriving DecidableEq, Repr

/-- The output record.  The JS object's nested `policy`, `tracking` and
`retrieval` objects are flattened into prefixed fields; fields a given
builder does not set keep their defaults. -/
structure Rec where
  sourceUrl : String := ""
  finalUrl : String := ""
  title : String := ""
  authors : List String := []
  year : String := ""
  journal : String := ""
  volume : String := ""
  issue : String := ""
  pageRange : String := ""
  publishedOnline : String := ""
  doiUrl : String := ""
  abstract : String := ""
  citation : String := ""
  missingFields : List String := []
  status : String := ""
  articleTypeRaw : String := ""
  articleType : String := ""
  ingestDecision : String := ""
  ingestReason : String := ""
  articleTypeClassificationSource : String := ""
  articleTypeMatchedHint : String := ""
  policyName : String := ""
  policyProtected : Bool := false
  resolvedUrl : String := ""
  trackingUsed : Bool := false
  trackingSourceUrl : String := ""
  trackingResolvedUrl : String := ""
  trackingStatusCode : Option Nat := none
  trackingError : String := ""
  retrievalMode : String := ""
  verifiedAt : String := ""
  navigationResolved : Bool := false
  errors : List ErrEntry := []
deriving DecidableEq, Repr

def requiredKeys : List String := ["title", "doiUrl", "journal", "year", "abstract", "citation"]

def recField (r : Rec) (k : String) : String :=
  if k = "title" then r.title
  else if k = "doiUrl" then r.doiUrl
  else if k = "journal" then r.journal
  else if k = "year" then r.year
  else if k = "abstract" then r.abstract
  else if k = "citation" then r.citation
  else ""

def requiredMissing (r : Rec) : List String :=
  requiredKeys.filter (fun k => isNotVerifiedValue (recField r k))

/-- `buildApaCitation(record)` (the main script's copy, using its own
`formatApaAuthors`). -/
def buildApaCitation (r : Rec) : String :=
  let authors := Script.formatApaAuthors r.authors
  let year := cleanText r.year
  let title := cleanText r.title
  let journal := cleanText r.journal
  let volume := cleanText r.volume
  let issue := cleanText r.issue
  let pageRange := cleanText r.pageRange
  let doiUrl := cleanText r.doiUrl
  if [authors, year, title, journal, doiUrl].any (fun f => isNotVerifiedValue f) then
    "[Not verified]"
  else
    let hasVolume := !(isNotVerifiedValue volume)
    let hasIssue := !(isNotVerifiedValue issue)
    let hasPageRange := !(isNotVerifiedValue pageRange)
    let hasPublishedOnline := !(isNotVerifiedValue r.publishedOnline)
    if !hasVolume && !hasIssue && !hasPageRange && hasPublishedOnline then
      ⟨authors.data ++ " (".data ++ year.data ++ "). ".data ++ title.data ++ ". ".data ++
        journal.data ++ ". Advance online publication. ".data ++ doiUrl.data⟩
    else
      let volumeIssue : String :=
        if hasVolume then
          (if hasIssue then ⟨volume.data ++ '(' :: issue.data ++ [')']⟩ else volume)
        else ""
      let tailParts : List String :=
        (if volumeIssue.data.isEmpty then [] else [volumeIssue]) ++
          (if hasPageRange then [pageRange] else [])
      let publicationTail : List Char := List.intercalate ", ".data (tailParts.map String.data)
      if publicationTail.isEmpty then "[Not verified]"
      else
        ⟨authors.data ++ " (".data ++ year.data ++ "). ".data ++ title.data ++ ". ".data ++
          journal.data ++ ", ".data ++ publicationTail ++ ". ".data ++ doiUrl.data⟩

def AOM_DOI_JOURNAL_BY_PREFIX : List (String × String) :=
  [("amj", "Academy of Management Journal"),
   ("amd", "Academy of Management Discoveries"),
   ("amr", "Academy of Management Review"),
   ("amp", "Academy of Management Perspectives"),
   ("annals", "Academy of Management Annals"),
   ("amle", "Academy of Management Learning & Education")]

/-- Leftmost successful application of a positional matcher. -/
def scanFindGo {α : Type} (m : List Char → Option α) : List Char → Option α
  | [] => none
  | c :: rest =>
    match m (c :: rest) with
    | some x => some x
    | none => scanFindGo m rest

/-- `/10\.5465\/([a-z]+)\./i` at the current position; yields the capture. -/
def aomPrefixAt (l : List Char) : Option (List Char) :=
  match eatCI "10.5465/".data l with
  | some r =>
    let letters := r.takeWhile isAsciiLetter
    if letters.isEmpty then none
    else
      match (r.dropWhile isAsciiLetter).head? with
      | some '.' => some letters
      | _ => none
  | none => none

/-- `aomJournalFromDoi(doiUrl)`; `none` propagates the `normalizeDoi`
throw. -/
def aomJournalFromDoi (doiUrl : String) : Option String :=
  (normalizeDoi doiUrl).map fun doi =>
    match scanFindGo aomPrefixAt doi.data with
    | none => ""
    | some letters =>
      match AOM_DOI_JOURNAL_BY_PREFIX.find? (fun kv => kv.1 = (⟨lowerL letters⟩ : String)) with
      | some kv => kv.2
      | none => ""

/-- `.replace(/\s+In-Press$/i, "")`. -/
def stripInPressTail (l : List Char) : List Char :=
  match eatCI "sserp-ni".data l.reverse with
  | some r =>
    (match r with
     | c :: _ => if isWsChar c then (r.dropWhile isWsChar).reverse else l
     | [] => l)
  | none => l

/-- `inferJournalFallback({ journal, pageTitle, finalUrl, doiUrl })`. -/
def inferJournalFallback (journal pageTitle finalUrl doiUrl : String) : Option String :=
  let direct := cleanText journal
  if !direct.data.isEmpty then some direct
  else
    (aomJournalFromDoi doiUrl).map fun fromDoi =>
      if !fromDoi.data.isEmpty then fromDoi
      else
        let title := cleanText pageTitle
        let maybeJournal : String :=
          if title.data.contains '|' then
            ⟨stripInPressTail
              (cleanTextL (List.intercalate ['|'] (splitOnChar '|' title.data).tail))⟩
          else ""
        if title.data.contains '|' && !maybeJournal.data.isEmpty then maybeJournal
        else if hostTailMatch "journals.aom.org" (hostForUrl finalUrl) then
          "Academy of Management [Not verified]"
        else ""

/-- `/\s+\|\s+Academy of Management .*$/i` holds at the current
position. -/
def aomTitleTailAt (l : List Char) : Bool :=
  match eatWs1 l with
  | some r =>
    (match r with
     | '|' :: r2 =>
       (match eatWs1 r2 with
        | some r3 => (eatCI "academy of management ".data r3).isSome
        | none => false)
     | _ => false)
  | none => false

/-- `cleanText(title).replace(/\s+\|\s+Academy of Management .*$/i, "")`:
truncate at the leftmost match. -/
def stripAomTitleTailGo : List Char → List Char
  | [] => []
  | c :: cs => if aomTitleTailAt (c :: cs) then [] else c :: stripAomTitleTailGo cs

/-- `buildRecordFromExtracted` up to (and including) the citation; the
missing-fields/status finish is `finishRecord`.  `none` models an uncaught
`URIError` escaping from one of the `normalizeDoi` calls. -/
def buildCore (e : Extracted) (sourceUrl policyName : String) : Option Rec :=
  match normalizeDoi e.doiMeta with
  | none => none
  | some d1 =>
    let doiStep : Option String :=
      if !d1.data.isEmpty then some d1
      else
        match normalizeDoi (extractDoiFromText (jsOrS e.finalUrl "")) with
        | none => none
        | some d2 =>
          if !d2.data.isEmpty then some d2
          else normalizeDoi (extractDoiFromText sourceUrl)
    match doiStep with
    | none => none
    | some doiUrl =>
      let normalizedTitle : String := ⟨stripAomTitleTailGo (cleanTextL e.title.data)⟩
      match inferJournalFallback e.journal e.pageTitle e.finalUrl doiUrl with
      | none => none
      | some inferredJournal =>
        let r0 : Rec := {
          sourceUrl := sourceUrl,
          finalUrl := jsOrS e.finalUrl sourceUrl,
          title := ensureField normalizedTitle,
          authors := uniqueStrings e.authors,
          year := ensureField (parseYear (jsOrS e.publicationDate "")),
          journal := ensureField (jsOrS inferredJournal e.journal),
          volume := ensureField e.volume,
          issue := ensureField e.issue,
          pageRange := ensureField e.pageRange,
          publishedOnline := ensureField e.publicationDate,
          doiUrl := ensureField doiUrl,
          abstract := ensureField e.abstractText,
          citation := "[Not verified]",
          articleTypeRaw := ensureField e.articleTypeHint,
          articleType := "[Not verified]",
          ingestDecision := "not_verified",
          ingestReason := "article_type_unclear",
          articleTypeClassificationSource := "none",
          articleTypeMatchedHint := "" }
        let cls := classifyArticleType policyName
          [⟨e.articleTypeMetaHint, "publisher_raw_type"⟩,
           ⟨e.articleTypeDomHint, "publisher_dom_type"⟩,
           ⟨e.articleTypeJsonLdHint, "publisher_jsonld_type"⟩]
          [⟨e.title, "title_heuristic"⟩, ⟨e.pageTitle, "page_title_heuristic"⟩]
        let r1 := { r0 with
          articleType := cls.articleType,
          ingestDecision := cls.ingestDecision,
          ingestReason := cls.ingestReason,
          articleTypeClassificationSource := jsOrS cls.articleTypeClassificationSource "none",
          articleTypeMatchedHint := jsOrS cls.articleTypeMatchedHint "" }
        some { r1 with citation := buildApaCitation r1 }

/-- The final two statements of `buildRecordFromExtracted`. -/
def finishRecord (r : Rec) : Rec :=
  let mf := requiredMissing r
  { r with missingFields := mf,
           status := if mf.isEmpty then "verified" else "not_verified" }

def buildRecordFromExtracted (e : Extracted) (sourceUrl policyName : String) : Option Rec :=
  (buildCore e sourceUrl policyName).map finishRecord

/-- The result shape of `resolveTrackedUrl`. -/
structure ResolveInfo where
  inputUrl : String := ""
  resolvedUrl : String := ""
  usedTrackingResolution : Bool := false
  trackingStatus : Option Nat := none
  trackingResolutionError : String := ""
deriving DecidableEq, Repr

/-- `x || null` on an optional numeric status (0 is falsy). -/
def jsOrNullNat (x : Option Nat) : Option Nat :=
  match x with
  | some 0 => none
  | v => v

/-- `buildExcludedLinkRecord`; `none` models the uncaught `normalizeDoi`
throw, and `now` stands in for `new Date().toISOString()`. -/
def buildExcludedLinkRecord (inputUrl finalUrl : String) (policy : DomainPolicy)
    (reason : String) (resolved : Option ResolveInfo) (now : String) : Option Rec :=
  match normalizeDoi finalUrl with
  | none => none
  | some m1 =>
    match (if !m1.data.isEmpty then some m1 else normalizeDoi inputUrl : Option String) with
    | none => none
    | some maybeDoi =>
      some { sourceUrl := inputUrl,
             finalUrl := jsOrS finalUrl inputUrl,
             title := "[Not verified]", authors := [],
             year := "[Not verified]", journal := "[Not verified]",
             volume := "[Not verified]", issue := "[Not verified]",
             pageRange := "[Not verified]", publishedOnline := "[Not verified]",
             doiUrl := ensureField maybeDoi,
             abstract := "[Not verified]", citation := "[Not verified]",
             missingFields := ["title", "journal", "year", "abstract", "citation"],
             status := "excluded",
             articleTypeRaw := "non-article-link", articleType := "announcement",
             ingestDecision := "exclude",
             ingestReason := jsOrS reason "non_article_link",
             articleTypeClassificationSource := "none", articleTypeMatchedHint := "",
             policyName := jsOrS policy.name "default",
             policyProtected := policy.protectedFlag,
             resolvedUrl := jsOrS finalUrl inputUrl,
             trackingUsed := (resolved.map (fun t => t.usedTrackingResolution)).getD false,
             trackingSourceUrl := jsOrS ((resolved.map (fun t => t.inputUrl)).getD "") inputUrl,
             trackingResolvedUrl := jsOrS ((resolved.map (fun t => t.resolvedUrl)).getD "")
               (jsOrS finalUrl inputUrl),
             trackingStatusCode := jsOrNullNat ((resolved.map (fun t => t.trackingStatus)).getD none),
             trackingError := (resolved.map (fun t => t.trackingResolutionError)).getD "",
             verifiedAt := now }

/-- `buildVerificationFailureRecord`; `none` models the uncaught
`normalizeDoi` throw. -/
def buildVerificationFailureRecord (inputUrl : String) (policy : DomainPolicy)
    (errors : List ErrEntry) (now : String) : Option Rec :=
  (normalizeDoi inputUrl).map fun nd =>
    { sourceUrl := inputUrl, finalUrl := inputUrl,
      title := "[Not verified]", authors := [],
      year := "[Not verified]", journal := "[Not verified]",
      volume := "[Not verified]", issue := "[Not verified]",
      pageRange := "[Not verified]", publishedOnline := "[Not verified]",
      doiUrl := ensureField nd,
      abstract := "[Not verified]", citation := "[Not verified]",
      missingFields := ["title", "journal", "year", "abstract", "citation"],
      status := "not_verified",
      articleTypeRaw := "[Not verified]", articleType := "[Not verified]",
      ingestDecision := "not_verified", ingestReason := "verification_failed",
      articleTypeClassificationSource := "none", articleTypeMatchedHint := "",
      policyName := jsOrS policy.name "default",
      policyProtected := policy.protectedFlag,
      verifiedAt := now,
      errors := errors }

/-! ### The per-URL verification state machine

`verifySingleUrl` re-expressed over oracles for the three network-bound
steps: the tracking-resolution `fetch`, the browser
navigation-and-extraction attempt (the whole `try` body up to
`extractMetadata`), and `verifyScienceDirectViaCurl`.  Oracles are indexed
by attempt number so distinct attempts may observe distinct outcomes.  A
`Bool` "network used" flag is threaded through and becomes true exactly
when an oracle is consulted.  Timing (backoff sleeps, timeouts) is not
modelled; `now` stands in for `new Date().toISOString()`.  `none` /
`thrown` model an exception escaping `verifySingleUrl` to its caller
(which has no handler). -/

inductive FetchOutcome where
  | err (message : String)
  | ok (respUrl : String) (status : Nat)
deriving DecidableEq, Repr

inductive NavOutcome where
  | err (errorName message : String) (challengeSignals : List String)
  | page (pageUrl : String) (extracted : Extracted)
deriving DecidableEq, Repr

structure CurlErr where
  targetUrl : String := ""
  errorName : String := ""
  message : String := ""
  challengeSignals : List String := []
deriving DecidableEq, Repr

structure CurlResult where
  ok : Bool
  record : Rec := {}
  errors : List CurlErr := []
deriving DecidableEq, Repr

structure Oracles where
  fetch : Nat → String → FetchOutcome
  nav : Nat → String → NavOutcome
  curl : Nat → String → CurlResult

structure Args where
  maxRetries : Nat
  skipTrackingResolution : Bool
  sciencedirectMode : String
deriving DecidableEq, Repr

/-- `resolveTrackedUrl`: pure pass-through off the tracking hosts,
otherwise the fetch oracle plus the source's post-processing (canonical
rewrite and the Wiley cookieAbsent fallback).  The second component
records whether the network was used. -/
def resolveTrackedUrlM (o : Oracles) (args : Args) (attempt : Nat) (inputUrl : String) :
    ResolveInfo × Bool :=
  if args.skipTrackingResolution || !(isTrackingUrl inputUrl) then
    ({ inputUrl := inputUrl, resolvedUrl := inputUrl, usedTrackingResolution := false,
       trackingStatus := none, trackingResolutionError := "" }, false)
  else
    match o.fetch attempt inputUrl with
    | .err msg =>
      ({ inputUrl := inputUrl, resolvedUrl := inputUrl, usedTrackingResolution := true,
         trackingStatus := none, trackingResolutionError := msg }, true)
    | .ok respUrl status =>
      let resolvedUrl := maybeCanonicalArticleUrl (jsOrS respUrl inputUrl)
      let resolvedPath : String :=
        match parseURL resolvedUrl with
        | some u => u.path
        | none => ""
      if hostTailMatch "el.wiley.com" (hostForUrl inputUrl) &&
          hostTailMatch "onlinelibrary.wiley.com" (hostForUrl resolvedUrl) &&
          lowerL resolvedPath.data = "/action/cookieabsent".data then
        ({ inputUrl := inputUrl, resolvedUrl := inputUrl, usedTrackingResolution := true,
           trackingStatus := some status,
           trackingResolutionError := "Tracker pre-resolution landed on Wiley cookieAbsent endpoint; ignoring and falling back to browser navigation." }, true)
      else
        ({ inputUrl := inputUrl, resolvedUrl := resolvedUrl, usedTrackingResolution := true,
           trackingStatus := some status, trackingResolutionError := "" }, true)

/-- Outcome of processing one target inside the attempt loop. -/
inductive TStep where
  | thrown
  | finished (ok : Bool) (record : Rec) (seen : SeenSet) (net : Bool)
  | nextTarget (seen : SeenSet) (errors : List ErrEntry) (net : Bool) (lastPolicy : DomainPolicy)
deriving Repr

/-- The browser part of one target iteration (from `getContext()` on);
everything inside the `try` that throws — including a `URIError` from a
record builder — is caught and appended to `errors`. -/
def browserStep (o : Oracles) (now inputUrl : String) (attempt : Nat)
    (rawTargetUrl : String) (resolved : ResolveInfo) (targetUrl : String)
    (policy : DomainPolicy) (seen : SeenSet) (errors : List ErrEntry) : TStep :=
  match o.nav attempt targetUrl with
  | .err errorName message challengeSignals =>
    let entry : ErrEntry :=
      { attempt := attempt, rawTargetUrl := rawTargetUrl,
        targetUrl := targetUrl, errorName := errorName, message := message,
        challengeSignals := challengeSignals,
        trackingResolutionError := resolved.trackingResolutionError }
    .nextTarget seen (errors ++ [entry]) true policy
  | .page pageUrl extracted =>
    let navigatedUrl := maybeCanonicalArticleUrl (jsOrS pageUrl targetUrl)
    let effTarget := jsOrS navigatedUrl targetUrl
    let effectivePolicy := policyForUrl effTarget
    let uriEntry : ErrEntry :=
      { attempt := attempt,
        rawTargetUrl := rawTargetUrl, targetUrl := targetUrl, errorName := "URIError",
        message := "URI malformed",
        trackingResolutionError := resolved.trackingResolutionError }
    let caught : TStep := .nextTarget seen (errors ++ [uriEntry]) true effectivePolicy
    if shouldSkipDuplicateFinalUrl seen effTarget inputUrl then
      match buildExcludedLinkRecord inputUrl effTarget effectivePolicy
          "duplicate_final_url_in_batch" (some resolved) now with
      | none => caught
      | some r => .finished true r seen true
    else
      match classifyKnownNonArticleLink navigatedUrl with
      | some nonArticleAfterNav =>
        let seen2 := rememberFinalUrl seen effTarget
        match buildExcludedLinkRecord inputUrl effTarget effectivePolicy
            nonArticleAfterNav (some resolved) now with
        | none => caught
        | some r => .finished true r seen2 true
      | none =>
        match buildRecordFromExtracted extracted inputUrl (jsOrS effectivePolicy.name "") with
        | none => caught
        | some record0 =>
          let record := { record0 with
            policyName := effectivePolicy.name,
            policyProtected := effectivePolicy.protectedFlag,
            resolvedUrl := effTarget,
            trackingUsed := resolved.usedTrackingResolution,
            trackingSourceUrl := resolved.inputUrl,
            trackingResolvedUrl := resolved.resolvedUrl,
            trackingStatusCode := jsOrNullNat resolved.trackingStatus,
            trackingError := resolved.trackingResolutionError,
            verifiedAt := now,
            navigationResolved := !navigatedUrl.data.isEmpty &&
              !(normalizeFinalUrlForRunDedupe navigatedUrl =
                normalizeFinalUrlForRunDedupe targetUrl) }
          let seen2 := rememberFinalUrl seen
            (jsOrS record.resolvedUrl (jsOrS record.finalUrl effTarget))
          .finished true record seen2 true

/-- One iteration of the inner `for (const rawTargetUrl of targets)`
loop. -/
def runTarget (o : Oracles) (args : Args) (now inputUrl : String) (attempt : Nat)
    (rawTargetUrl : String) (seen : SeenSet) (errors : List ErrEntry) (net : Bool) : TStep :=
  match classifyUnsafePreNavigationLink rawTargetUrl "" with
  | some unsafeInputReason =>
    match buildExcludedLinkRecord inputUrl rawTargetUrl (policyForUrl rawTargetUrl)
        unsafeInputReason none now with
    | none => .thrown
    | some r => .finished true r seen net
  | none =>
    let rp := resolveTrackedUrlM o args attempt rawTargetUrl
    let resolved := rp.1
    let net1 := net || rp.2
    let targetUrl := resolved.resolvedUrl
    let policy := policyForUrl targetUrl
    match classifyUnsafePreNavigationLink targetUrl "" with
    | some unsafeResolvedReason =>
      let seen2 := rememberFinalUrl seen targetUrl
      match buildExcludedLinkRecord inputUrl targetUrl policy unsafeResolvedReason
          (some resolved) now with
      | none => .thrown
      | some r => .finished true r seen2 net1
    | none =>
      if shouldSkipDuplicateFinalUrl seen targetUrl inputUrl then
        match buildExcludedLinkRecord inputUrl targetUrl policy "duplicate_final_url_in_batch"
            (some resolved) now with
        | none => .thrown
        | some r => .finished true r seen net1
      else
        match classifyKnownNonArticleLink targetUrl with
        | some nonArticleReason =>
          let seen2 := rememberFinalUrl seen targetUrl
          match buildExcludedLinkRecord inputUrl targetUrl policy nonArticleReason
              (some resolved) now with
          | none => .thrown
          | some r => .finished true r seen2 net1
        | none =>
          let shouldTrySD := !(args.sciencedirectMode = "browser") &&
            (policy.name = "sciencedirect" || isScienceDirectLikeUrl targetUrl ||
             isScienceDirectLikeUrl rawTargetUrl || isScienceDirectLikeUrl inputUrl)
          if shouldTrySD then
            let curlResult := o.curl attempt targetUrl
            if curlResult.ok then
              if curlResult.record.status = "verified" || args.sciencedirectMode = "curl" ||
                  curlResult.record.ingestDecision = "exclude" then
                let dupUrl := jsOrS curlResult.record.resolvedUrl
                  (jsOrS curlResult.record.finalUrl targetUrl)
                if shouldSkipDuplicateFinalUrl seen dupUrl inputUrl then
                  match buildExcludedLinkRecord inputUrl dupUrl (policyForUrl dupUrl)
                      "duplicate_final_url_in_batch" (some resolved) now with
                  | none => .thrown
                  | some r => .finished true r seen true
                else
                  .finished true curlResult.record (rememberFinalUrl seen dupUrl) true
              else
                let entry : ErrEntry :=
                  { method := "curl_sciencedirect", attempt := attempt,
                    rawTargetUrl := rawTargetUrl, targetUrl := targetUrl,
                    errorName := "IncompleteRecord",
                    message := "ScienceDirect curl path returned partial metadata; falling back to browser extraction.",
                    missingFields := curlResult.record.missingFields,
                    trackingResolutionError := resolved.trackingResolutionError }
                let errors2 := errors ++ [entry]
                if args.sciencedirectMode = "curl" then .nextTarget seen errors2 true policy
                else browserStep o now inputUrl attempt rawTargetUrl resolved targetUrl policy
                  seen errors2
            else
              let errors2 := errors ++ curlResult.errors.map (fun e =>
                { method := "curl_sciencedirect", attempt := attempt,
                  rawTargetUrl := rawTargetUrl, targetUrl := targetUrl,
                  errorName := jsOrS e.errorName "Error",
                  message := jsOrS e.message "ScienceDirect curl extraction failed",
                  challengeSignals := e.challengeSignals,
                  trackingResolutionError := resolved.trackingResolutionError })
              if args.sciencedirectMode = "curl" then .nextTarget seen errors2 true policy
              else browserStep o now inputUrl attempt rawTargetUrl resolved targetUrl policy
                seen errors2
          else
            browserStep o now inputUrl attempt rawTargetUrl resolved targetUrl policy seen errors

/-- Outcome of one pass over the whole target list. -/
inductive TLoop where
  | thrown
  | finished (ok : Bool) (record : Rec) (seen : SeenSet) (net : Bool)
  | exhausted (seen : SeenSet) (errors : List ErrEntry) (net : Bool) (lastPolicy : DomainPolicy)
deriving Repr

def targetsGo (o : Oracles) (args : Args) (now inputUrl : String) (attempt : Nat) :
    List String → SeenSet → List ErrEntry → Bool → DomainPolicy → TLoop
  | [], seen, errors, net, lp => .exhausted seen errors net lp
  | t :: ts, seen, errors, net, lp =>
    match runTarget o args now inputUrl attempt t seen errors net with
    | .thrown => .thrown
    | .finished ok r s n => .finished ok r s n
    | .nextTarget s e n lp2 => targetsGo o args now inputUrl attempt ts s e n lp2

/-- Result of the whole per-URL function: `thrown` is an exception
escaping to the caller. -/
inductive VOut where
  | thrown
  | result (ok : Bool) (record : Rec) (seen : SeenSet) (net : Bool)
deriving Repr

/-- The `for (attempt = 1; attempt <= maxRetries; ...)` loop; the first
argument counts the remaining attempts. -/
def attemptsGo (o : Oracles) (args : Args) (now inputUrl : String) (targets : List String) :
    Nat → Nat → SeenSet → List ErrEntry → Bool → DomainPolicy → VOut
  | 0, _attempt, seen, errors, net, lp =>
    match buildVerificationFailureRecord inputUrl lp errors now with
    | none => .thrown
    | some r => .result false r seen net
  | Nat.succ k, attempt, seen, errors, net, lp =>
    match targetsGo o args now inputUrl attempt targets seen errors net lp with
    | .thrown => .thrown
    | .finished ok r s n => .result ok r s n
    | .exhausted s e n lp2 => attemptsGo o args now inputUrl targets k (attempt + 1) s e n lp2

/-- `verifySingleUrl(getContext, inputUrl, args, seenFinalUrls)`.  `none`
models the uncaught throw (in particular the line-one
`normalizeDoi(inputUrl)`). -/
def verifySingleUrlM (o : Oracles) (args : Args) (now inputUrl : String) (seen0 : SeenSet) :
    Option (Bool × Rec × SeenSet × Bool) :=
  match normalizeDoi inputUrl with
  | none => none
  | some canonical =>
    let targets := uniqueStrings [inputUrl, canonical]
    match attemptsGo o args now inputUrl targets args.maxRetries 1 seen0 [] false
        (policyForUrl inputUrl) with
    | .thrown => none
    | .result ok r s n => some (ok, r, s, n)

/-- A sequential batch (`runVerificationPass` at concurrency 1, sharing
`seenFinalUrls` across URLs); any uncaught per-URL throw rejects the whole
batch (`mapLimit`/`runVerificationPass` have no handler). -/
def runBatch (o : Nat → Oracles) (args : Args) (now : String) :
    List String → Nat → SeenSet → Option (List (Bool × Rec) × SeenSet)
  | [], _, seen => some ([], seen)
  | u :: us, i, seen =>
    match verifySingleUrlM (o i) args now u seen with
    | none => none
    | some (ok, r, seen2, _net) =>
      match runBatch o args now us (i + 1) seen2 with
      | none => none
      | some (rest, seenF) => some ((ok, r) :: rest, seenF)

/-! ### Concrete scenarios used by the machine-level theorems -/

/-- A complete extraction payload that yields a verified, included
record. -/
def eDemo : Extracted :=
  { doiMeta := "10.1234/abcd.2026.0001"
    finalUrl := "https://x.com/a"
    title := "A Study of Things"
    pageTitle := "A Study of Things | Journal of Tests"
    journal := "Journal of Tests"
    publicationDate := "2026-01-15"
    authors := ["Ada Lovelace", "Grace Hopper"]
    volume := "12"
    issue := "3"
    pageRange := "100-120"
    abstractText := "This abstract is quite long and informative, describing the study design, methods, results and conclusions in detail."
    articleTypeHint := "Research Article"
    articleTypeMetaHint := "Research Article" }

/-- Oracles whose navigation always succeeds with `eDemo`. -/
def oNavDemo : Oracles :=
  { fetch := fun _ _ => .err "offline"
    nav := fun _ u => .page u eDemo
    curl := fun _ _ => { ok := false } }

/-- Oracles whose navigation always times out. -/
def oErrDemo : Oracles :=
  { fetch := fun _ _ => .err "offline"
    nav := fun _ _ => .err "TimeoutError" "page.goto: Timeout exceeded" []
    curl := fun _ _ => { ok := false } }

def argsDemo : Args :=
  { maxRetries := 1
    skipTrackingResolution := false
    sciencedirectMode := "browser" }

/-- The error entry accumulated for a failed navigation at attempt `j`. -/
def navErrEntry (u : String) (en em : Nat → String) (cs : Nat → List String) (j : Nat) :
    ErrEntry :=
  { attempt := j, rawTargetUrl := u, targetUrl := u, errorName := en j, message := em j,
    challengeSignals := cs j, trackingResolutionError := "" }

/-- Two distinct inputs that normalize to the same final URL for the run
dedupe. -/
def dupUrlA : String := "https://x.com/a?utm_source=1"

def dupUrlB : String := "https://x.com/a"

def uC7 : String := "https://journals.aom.org/action/removealert?doi=10.5465/amj.2023.0515"

def rC7 : Rec :=
  (buildExcludedLinkRecord uC7 uC7 (policyForUrl uC7) "alert_unsubscribe_link" none "T").getD {}

/-- A tracking-host input whose fetch oracle resolves to an
already-seen article URL. -/
def uC2 : String := "https://el.aom.org/track/click123"

def fC2 : String := "https://journals.aom.org/doi/10.5465/amj.2023.0515"

def oC2 : Oracles :=
  { fetch := fun _ _ => .ok fC2 200
    nav := fun _ _ => .err "TimeoutError" "unused" []
    curl := fun _ _ => { ok := false } }

def riC2 : ResolveInfo :=
  { inputUrl := uC2, resolvedUrl := fC2, usedTrackingResolution := true,
    trackingStatus := some 200, trackingResolutionError := "" }

def rC2 : Rec :=
  (buildExcludedLinkRecord uC2 fC2 (policyForUrl fC2) "duplicate_final_url_in_batch"
    (some riC2) "T").getD {}

/-- C6.  The space-separated name "Ludwig van Beethoven" parses to
family "van Beethoven", given ["Ludwig"], formatted "van Beethoven, L.";
likewise a name with a two-particle run ("Vincent van der Berg") keeps the
lowercase particles verbatim inside the family name. -/
theorem parseAuthorName_family_particles :
    (Option.map (fun a => (a.family, a.given, a.formattedApa))
      (parseAuthorName "Ludwig van Beethoven" false "").1) =
      some ("van Beethoven", ["Ludwig"], "van Beethoven, L.") ∧
    (Option.map (fun a => (a.family, a.given, a.formattedApa))
      (parseAuthorName "Vincent van der Berg" false "").1) =
      some ("van der Berg", ["Vincent"], "van der Berg, V.") := by decide

/-- C9, counterexample: the two source copies disagree on author
formatting.  The token-split copy in `scripts/verify_publisher_record.mjs`
treats the particle "van" as a given name and renders "Beethoven, L. V.",
while the structured parser of the other copy renders "van Beethoven, L.". -/
theorem formatApaAuthors_copies_disagree :
    Script.formatApaAuthors ["Ludwig van Beethoven"] = "Beethoven, L. V." ∧
    P1.formatApaAuthors ["Ludwig van Beethoven"] = "van Beethoven, L." ∧
    ("Beethoven, L. V." : String) ≠ "van Beethoven, L." := by decide

/-- Witness for the amended C10 at the concrete DOI-free input. -/
theorem normalizeDoi_total_on_wellformed_witness :
    (normalizeDoi "plain text, no doi").isSome = true ∧
    (∀ raw, decodeURIComponentM (trimL ("plain text, no doi" : String).data) = some raw →
      findDoiMatch (stripDoiColon (stripDoiOrgUrl raw)) = none →
      normalizeDoi "plain text, no doi" = some "") :=
  normalizeDoi_total_on_wellformed "plain text, no doi" (by decide)

/-! ### C5: raw-type precedence in article-type classification -/

/-- With overrides disabled, `normalizeArticleTypeValue` never consults the
policy name. -/
theorem normalizeArticleTypeValue_noOverride (v p q : String) :
    normalizeArticleTypeValue v p false = normalizeArticleTypeValue v q false := rfl

theorem classifyOne_noOverride (h : TypeHint) (p q : String) :
    classifyOne p false h = classifyOne q false h := by
  unfold classifyOne
  rw [normalizeArticleTypeValue_noOverride h.value p q]

theorem firstClassifiedHint_noOverride (p q : String) (hs : List TypeHint) :
    firstClassifiedHint p false hs = firstClassifiedHint q false hs := by
  induction hs with
  | nil => rfl
  | cons h rest ih =>
    simp only [firstClassifiedHint, classifyOne_noOverride h p q, ih]

/-- A hint whose value normalizes (with overrides allowed) to
"research-article" classifies as an include decision. -/
theorem classifyOne_research (p : String) (h : TypeHint)
    (hres : (normalizeArticleTypeValue h.value p true).1 = "research-article") :
    classifyOne p true h = some
      { articleType := "research-article", ingestDecision := "include",
        ingestReason := ⟨"included_by_type:".data ++ ("research-article" : String).data⟩,
        articleTypeClassificationSource := h.sourceLabel,
        articleTypeMatchedHint :=
          if (normalizeArticleTypeValue h.value p true).2.data.isEmpty then h.value
          else (normalizeArticleTypeValue h.value p true).2 } := by
  simp only [classifyOne]
  rw [hres]
  rw [if_neg (by decide), if_neg (by decide), if_pos (by decide)]

/-- C5.  (i) Whenever the publisher raw-type hint normalizes (with policy
overrides allowed) to "research-article", `classifyArticleType` returns
articleType "research-article" with an include decision regardless of the
semantic (title) hints supplied alongside; (ii) with no raw hints,
classification of semantic hints is independent of the policy name, i.e.
the per-policy overrides are never consulted for semantic hints. -/
theorem classifyArticleType_raw_type_precedence :
    (∀ p lbl v S, (cleanText v).data.isEmpty = false →
      (normalizeArticleTypeValue (cleanText v) p true).1 = "research-article" →
      (classifyArticleType p [⟨v, lbl⟩] S).articleType = "research-article" ∧
      (classifyArticleType p [⟨v, lbl⟩] S).ingestDecision = "include") ∧
    (∀ p q S, classifyArticleType p [] S = classifyArticleType q [] S) := by
  constructor
  · intro p lbl v S h1 hres
    simp only [classifyArticleType, collectHintsGo, h1, Bool.false_eq_true, if_false,
      List.contains_nil, firstClassifiedHint]
    rw [classifyOne_research p ⟨cleanText v, _⟩ hres]
    exact ⟨rfl, rfl⟩
  · intro p q S
    simp only [classifyArticleType, collectHintsGo, firstClassifiedHint]
    rw [firstClassifiedHint_noOverride p q]

/-- Witness for C5 at the concrete inputs from the spec: a springer_link
"Original Paper" raw hint beats a "Perspective"-matching title hint, and a
semantic-only classification does not depend on the policy. -/
theorem classifyArticleType_raw_type_precedence_witness :
    ((classifyArticleType "springer_link" [⟨"Original Paper", "publisher_raw_type"⟩]
        [⟨"A Perspective on Stars", "title_heuristic"⟩]).articleType = "research-article" ∧
     (classifyArticleType "springer_link" [⟨"Original Paper", "publisher_raw_type"⟩]
        [⟨"A Perspective on Stars", "title_heuristic"⟩]).ingestDecision = "include") ∧
    classifyArticleType "springer_link" [] [⟨"A Perspective on Stars", "title_heuristic"⟩] =
      classifyArticleType "wiley_onlinelibrary" [] [⟨"A Perspective on Stars", "title_heuristic"⟩] :=
  ⟨classifyArticleType_raw_type_precedence.1 "springer_link" "publisher_raw_type"
      "Original Paper" [⟨"A Perspective on Stars", "title_heuristic"⟩] (by decide) (by decide),
   classifyArticleType_raw_type_precedence.2 "springer_link" "wiley_onlinelibrary"
      [⟨"A Perspective on Stars", "title_heuristic"⟩]⟩

/-! ### C4: abstract selection prefers the longest scored candidate, not
unconditionally the DOM abstract -/

/-- C4, counterexample: a 251-character DOM abstract (> 250, no ellipsis,
no boilerplate) loses to a 400-character meta teaser ending in "..." on
BOTH paths: `chooseBestAbstract` has no ellipsis penalty at all and sorts
by raw length, and `chooseBestAbstractLocal`'s −120 penalty still leaves
the teaser with score 280 > 251. -/
theorem abstract_teaser_beats_dom :
    250 < domSample.data.length ∧
    endsWithEllipsis domSample.data = false ∧
    hasBoilerplate domSample.data = false ∧
    endsWithEllipsis metaSample.data = true ∧
    chooseBestAbstract [domSample, metaSample] = some metaSample ∧
    chooseBestAbstractLocal [domSample, metaSample] = metaSample := by decide

/-- C4, amended.  (i) On the curl path, for two normalization-fixed,
boilerplate-free candidates of length ≥ 80, `chooseBestAbstract` picks the
DOM text whenever it is strictly longer than the meta text — the trailing
"..." plays no role there.  (ii) On the browser path,
`chooseBestAbstractLocal` picks a penalty-free DOM text over an
ellipsis-terminated teaser exactly under the scoring rule: whenever the
teaser's length is less than the DOM length plus the 120-point ellipsis
penalty. -/
theorem chooseBestAbstract_longest_scored_wins :
    (∀ d m : String,
      normalizeAbstractText d = some d → normalizeAbstractText m = some m →
      cleanText d = d → cleanText m = m →
      d.isEmpty = false → m.isEmpty = false → m ≠ d →
      80 ≤ d.data.length → 80 ≤ m.data.length →
      hasBoilerplate d.data = false → hasBoilerplate m.data = false →
      d.data.isEmpty = false →
      m.data.length < d.data.length →
      chooseBestAbstract [d, m] = some d) ∧
    (∀ d m : String,
      localNormalizeOne d = d → localNormalizeOne m = m →
      d.data.isEmpty = false → m.data.isEmpty = false →
      lowerL m.data ≠ lowerL d.data →
      hasBoilerplate d.data = false → hasBoilerplate m.data = false →
      endsWithEllipsis d.data = false →
      isClickPromptArticle d.data = false → isClickPromptIssue d.data = false →
      endsWithEllipsis m.data = true →
      isClickPromptArticle m.data = false → isClickPromptIssue m.data = false →
      m.data.length < d.data.length + 120 →
      chooseBestAbstractLocal [d, m] = d) := by
  constructor
  · intro d m hnd hnm hcd hcm hed hem hne hld hlm hbd hbm hdd hlt
    have htrav : traverseNorm [d, m] = some [d, m] := by
      simp only [traverseNorm, hnd, hnm]
      rfl
    have hcont : (List.contains [d] m) = false := by
      simp only [List.contains_cons, List.contains_nil, Bool.or_false, beq_eq_false_iff_ne]
      exact hne
    have huniq : uniqueStrings [d, m] = [d, m] := by
      simp only [uniqueStrings, uniqueStringsGo, hcd, hcm, hed, hem, hcont,
        List.contains_nil, Bool.false_eq_true, if_false]
    have hfd : (decide (80 ≤ d.data.length)) = true := decide_eq_true hld
    have hfm : (decide (80 ≤ m.data.length)) = true := decide_eq_true hlm
    have hfilter : List.filter (fun t => decide (80 ≤ t.data.length)) [d, m] = [d, m] := by
      simp only [List.filter, hfd, hfm]
    have hbfilter : List.filter (fun t => !(hasBoilerplate t.data)) [d, m] = [d, m] := by
      simp only [List.filter, hbd, hbm, Bool.not_false]
    have hcmp : lenCmp d m ≤ 0 := by
      simp only [lenCmp]
      omega
    simp only [chooseBestAbstract, htrav, Option.map, huniq, hfilter, hbfilter]
    rw [if_neg (by simp)]
    simp only [sortJS, insSorted, if_pos hcmp, List.head?, Option.getD, jsOrS, hdd,
      Bool.false_eq_true, if_false]
  · intro d m hfd hfm hedd hemm hkey hbd hbm helld hcp1d hcp2d hellm hcp1m hcp2m hlen
    have hkc : (List.contains [lowerL d.data] (lowerL m.data)) = false := by
      simp only [List.contains_cons, List.contains_nil, Bool.or_false, beq_eq_false_iff_ne]
      exact hkey
    have hcollect : localCollect [] [d, m] = [d, m] := by
      simp only [localCollect, hfd, hfm, hedd, hemm, hkc, List.contains_nil,
        Bool.false_eq_true, if_false]
    have hbfilter : List.filter (fun t => !(hasBoilerplate t.data)) [d, m] = [d, m] := by
      simp only [List.filter, hbd, hbm, Bool.not_false]
    have hsd : localScore d = (d.data.length : Int) := by
      simp [localScore, helld, hcp1d, hcp2d]
    have hsm : localScore m = (m.data.length : Int) - 120 := by
      simp [localScore, hellm, hcp1m, hcp2m]
    have hcmp : localCmp (d, localScore d) (m, localScore m) ≤ 0 := by
      simp only [localCmp, hsd, hsm]
      rw [if_neg (by omega)]
      omega
    simp only [chooseBestAbstractLocal, hcollect]
    rw [if_neg (by simp)]
    simp only [hbfilter, List.isEmpty_cons, Bool.false_eq_true, if_false, List.map,
      sortJS, insSorted, if_pos hcmp, List.head?, Option.map, Option.getD, jsOrS, hedd]

/-- Witness for the amended C4 at concrete candidates: the 251-character
DOM text beats a 100-character plain meta on the curl path and a
203-character "..." teaser (score 83) on the browser path. -/
theorem chooseBestAbstract_longest_scored_wins_witness :
    chooseBestAbstract [domSample, metaPlain] = some domSample ∧
    chooseBestAbstractLocal [domSample, metaShort] = domSample :=
  ⟨chooseBestAbstract_longest_scored_wins.1 domSample metaPlain (by decide) (by decide)
      (by decide) (by decide) (by decide) (by decide) (by decide) (by decide) (by decide)
      (by decide) (by decide) (by decide) (by decide),
   chooseBestAbstract_longest_scored_wins.2 domSample metaShort (by decide) (by decide)
      (by decide) (by decide) (by decide) (by decide) (by decide) (by decide) (by decide)
      (by decide) (by decide) (by decide) (by decide) (by decide)⟩

/-! ### C1: verified status is exactly "no required field missing" -/

theorem requiredMissing_finish (r0 : Rec) :
    requiredMissing (finishRecord r0) = requiredMissing r0 := rfl

theorem finish_status_iff (r0 : Rec) :
    ((finishRecord r0).status = "verified") ↔ requiredMissing (finishRecord r0) = [] := by
  rw [requiredMissing_finish]
  by_cases hm : requiredMissing r0 = []
  · simp [finishRecord, hm]
  · have he : (requiredMissing r0).isEmpty = false := list_isEmpty_false hm
    simp only [finishRecord, he, Bool.false_eq_true, if_false]
    constructor
    · intro h; exact absurd h (by decide)
    · intro h; exact absurd h hm

/-- Any record whose title is the sentinel and whose status is not
"verified" satisfies the required-field iff (both sides false). -/
theorem status_iff_of_sentinel_title (r : Rec) (ht : isNotVerifiedValue r.title = true)
    (hs : r.status ≠ "verified") :
    ((r.status = "verified") ↔ requiredMissing r = []) := by
  constructor
  · intro h; exact absurd h hs
  · intro h
    have hmem : "title" ∈ requiredMissing r := by
      apply List.mem_filter.mpr
      refine ⟨by decide, ?_⟩
      simpa [recField] using ht
    rw [h] at hmem
    exact absurd hmem (List.not_mem_nil _)

/-- C1.  Every record any of the three builders can return has status
"verified" exactly when none of the six required fields (title, doiUrl,
journal, year, abstract, citation) is empty or the "[Not verified]"
sentinel: the extraction builder computes status from `requiredMissing`,
and the excluded-link and verification-failure builders always carry a
sentinel title together with a non-"verified" status. -/
theorem record_status_verified_iff_no_missing :
    (∀ e s p r, buildRecordFromExtracted e s p = some r →
        ((r.status = "verified") ↔ requiredMissing r = [])) ∧
    (∀ i f now reason pol tr r, buildExcludedLinkRecord i f pol reason tr now = some r →
        ((r.status = "verified") ↔ requiredMissing r = [])) ∧
    (∀ i now pol es r, buildVerificationFailureRecord i pol es now = some r →
        ((r.status = "verified") ↔ requiredMissing r = [])) := by
  refine ⟨?_, ?_, ?_⟩
  · intro e s p r h
    rw [buildRecordFromExtracted] at h
    obtain ⟨r0, _h0, hr⟩ := Option.map_eq_some'.mp h
    rw [← hr]
    exact finish_status_iff r0
  · intro i f now reason pol tr r h
    rw [buildExcludedLinkRecord] at h
    split at h
    · exact absurd h (by simp)
    · split at h
      · exact absurd h (by simp)
      · injection h with h2
        rw [← h2]
        exact status_iff_of_sentinel_title _
          (show isNotVerifiedValue ("[Not verified]" : String) = true from by decide)
          (show ("excluded" : String) ≠ "verified" from by decide)
  · intro i now pol es r h
    rw [buildVerificationFailureRecord] at h
    obtain ⟨nd, _h0, hr⟩ := Option.map_eq_some'.mp h
    rw [← hr]
    exact status_iff_of_sentinel_title _
      (show isNotVerifiedValue ("[Not verified]" : String) = true from by decide)
      (show ("not_verified" : String) ≠ "verified" from by decide)

def wRec : Rec := (buildRecordFromExtracted {} "" "").getD {}

def wRecE : Rec :=
  (buildExcludedLinkRecord "https://x.com/a" "https://x.com/a" (policyForUrl "https://x.com/a")
    "non_article_link" none "T").getD {}

def wRecF : Rec :=
  (buildVerificationFailureRecord "https://x.com/a" (policyForUrl "https://x.com/a") [] "T").getD {}

/-- Witness for C1 at concrete builder outputs. -/
theorem record_status_verified_iff_no_missing_witness :
    ((wRec.status = "verified") ↔ requiredMissing wRec = []) ∧
    ((wRecE.status = "verified") ↔ requiredMissing wRecE = []) ∧
    ((wRecF.status = "verified") ↔ requiredMissing wRecF = []) :=
  ⟨record_status_verified_iff_no_missing.1 {} "" "" wRec (by rfl),
   record_status_verified_iff_no_missing.2.1 "https://x.com/a" "https://x.com/a" "T"
     "non_article_link" (policyForUrl "https://x.com/a") none wRecE (by rfl),
   record_status_verified_iff_no_missing.2.2 "https://x.com/a" "T"
     (policyForUrl "https://x.com/a") [] wRecF (by rfl)⟩

/-! ### C7, C2, C8: the per-URL state machine -/

/-- The duplicate-final-URL skip never fires when the input URL itself
normalizes to the candidate's dedupe key (the source's own-final-URL
escape hatch); in particular it never fires for `raw = input`. -/
theorem shouldSkip_of_normalize_eq (seen : SeenSet) (raw input : String)
    (h : normalizeFinalUrlForRunDedupe input = normalizeFinalUrlForRunDedupe raw) :
    shouldSkipDuplicateFinalUrl seen raw input = false := by
  cases seen with
  | none => rfl
  | some s =>
    simp only [shouldSkipDuplicateFinalUrl]
    repeat' split
    all_goals simp [h]

/-- C7, counterexample: a `file:` URL has a non-HTTP(S) scheme, yet the
scheme guard whitelists it (`classifyUnsupportedUrlScheme` returns null),
so the machine proceeds to browser navigation (network flag true) and, on
failure, returns a verification-failure record instead of the excluded
record the claim requires. -/
theorem file_scheme_reaches_navigation :
    classifyUnsupportedUrlScheme "file:///tmp/fixture.html" = none ∧
    classifyUnsafePreNavigationLink "file:///tmp/fixture.html" "" = none ∧
    (parseURL "file:///tmp/fixture.html").map UrlParts.scheme = some "file" ∧
    (verifySingleUrlM oErrDemo argsDemo "T" "file:///tmp/fixture.html" none).map
        (fun t => (t.1, t.2.1.status, t.2.1.ingestReason, t.2.2.2)) =
      some (false, "not_verified", "verification_failed", true) := by decide

/-- C7, amended.  Whenever the URL text itself matches an unsafe
pre-navigation pattern (unsubscribe or alert-management href/text
patterns, or a parseable scheme outside the http/https/file whitelist),
the machine returns the excluded record immediately: for every choice of
oracles, with the seen set unchanged and the network flag still false. -/
theorem unsafe_prenav_excluded_without_network :
    ∀ (o : Oracles) (args : Args) (now u c reason : String) (seen : SeenSet) (r : Rec),
      normalizeDoi u = some c →
      cleanText u = u → u.isEmpty = false →
      classifyUnsafePreNavigationLink u "" = some reason →
      buildExcludedLinkRecord u u (policyForUrl u) reason none now = some r →
      1 ≤ args.maxRetries →
      verifySingleUrlM o args now u seen = some (true, r, seen, false) := by
  intro o args now u c reason seen r h1 hcl hne hsafe hexcl hmr
  obtain ⟨k, hk⟩ : ∃ k, args.maxRetries = k + 1 := ⟨args.maxRetries - 1, by omega⟩
  have htg : uniqueStrings [u, c] = u :: uniqueStringsGo [u] [c] := by
    simp only [uniqueStrings, uniqueStringsGo, hcl, hne, List.contains_nil,
      Bool.false_eq_true, if_false]
  simp only [verifySingleUrlM, h1, htg, hk, attemptsGo, targetsGo, runTarget, hsafe, hexcl]

/-- Witness for the amended C7: a journals.aom.org removealert link is
excluded with no oracle consulted. -/
theorem unsafe_prenav_excluded_without_network_witness :
    verifySingleUrlM oErrDemo argsDemo "T" uC7 (some []) = some (true, rC7, some [], false) :=
  unsafe_prenav_excluded_without_network oErrDemo argsDemo "T" uC7
    "https://doi.org/10.5465/amj.2023.0515" "alert_unsubscribe_link" (some []) rC7
    (by decide) (by decide) (by decide) (by decide) (by rfl) (by decide)

/-- C2, counterexample: two distinct inputs normalizing to the same final
URL both verify — the second is not excluded as a duplicate, because
`shouldSkipDuplicateFinalUrl` bypasses the check when the input URL
itself normalizes to the candidate key. -/
theorem dedupe_bypassed_when_input_normalizes_to_key :
    dupUrlA ≠ dupUrlB ∧
    normalizeFinalUrlForRunDedupe dupUrlA = normalizeFinalUrlForRunDedupe dupUrlB ∧
    (runBatch (fun _ => oNavDemo) argsDemo "T" [dupUrlA, dupUrlB] 0 (some [])).map
        (fun p => p.1.map (fun q => (q.1, q.2.status, q.2.ingestDecision, q.2.ingestReason))) =
      some [(true, "verified", "include", "included_by_type:research-article"),
            (true, "verified", "include", "included_by_type:research-article")] := by decide

/-- C2, amended.  (i) When a tracking link resolves (via the fetch
oracle) to a final URL whose dedupe key is already in the run's seen set,
and that key differs from the input URL's own normalization, the machine
returns the duplicate-excluded record for every choice of the remaining
oracles — the URL is not re-verified.  (ii) The skip is bypassed whenever
the input URL normalizes to the candidate's own key, so a batch
containing the canonical URL alongside a tracking-parameter variant
re-verifies instead of excluding. -/
theorem duplicate_final_url_excluded_second_time :
    (∀ (o : Oracles) (args : Args) (now u F : String) (st : Nat) (seen : List String) (r : Rec),
      normalizeDoi u = some "" →
      cleanText u = u → u.isEmpty = false →
      classifyUnsafePreNavigationLink u "" = none →
      isTrackingUrl u = true →
      args.skipTrackingResolution = false →
      o.fetch 1 u = .ok F st →
      F.data.isEmpty = false →
      maybeCanonicalArticleUrl F = F →
      hostTailMatch "el.wiley.com" (hostForUrl u) = false →
      classifyUnsafePreNavigationLink F "" = none →
      shouldSkipDuplicateFinalUrl (some seen) F u = true →
      buildExcludedLinkRecord u F (policyForUrl F) "duplicate_final_url_in_batch"
        (some { inputUrl := u, resolvedUrl := F, usedTrackingResolution := true,
                trackingStatus := some st, trackingResolutionError := "" }) now = some r →
      1 ≤ args.maxRetries →
      verifySingleUrlM o args now u (some seen) = some (true, r, some seen, true)) ∧
    (∀ (seen : SeenSet) (raw input : String),
      normalizeFinalUrlForRunDedupe input = normalizeFinalUrlForRunDedupe raw →
      shouldSkipDuplicateFinalUrl seen raw input = false) := by
  constructor
  · intro o args now u F st seen r h1 hcl hne hsafe htrack hskip0 hfetch hFne hcanon
      hwiley hunsafeF hskip hexcl hmr
    obtain ⟨k, hk⟩ : ∃ k, args.maxRetries = k + 1 := ⟨args.maxRetries - 1, by omega⟩
    have htg : uniqueStrings [u, ""] = [u] := by
      simp only [uniqueStrings, uniqueStringsGo, hcl, hne, List.contains_nil,
        Bool.false_eq_true, if_false, show (cleanText "").isEmpty = true from rfl, if_true]
    have hres : resolveTrackedUrlM o args 1 u =
        ({ inputUrl := u, resolvedUrl := F, usedTrackingResolution := true,
           trackingStatus := some st, trackingResolutionError := "" }, true) := by
      simp only [resolveTrackedUrlM, htrack, hskip0, Bool.not_true, Bool.or_false, if_false,
        Bool.false_eq_true, hfetch, jsOrS, hFne, hcanon, hwiley, Bool.false_and, if_true]
    simp only [verifySingleUrlM, h1, htg, hk, attemptsGo, targetsGo, runTarget, hsafe,
      hres, hunsafeF, hskip, hexcl, Bool.false_or, if_true]
  · exact shouldSkip_of_normalize_eq

/-- Witness for the amended C2: the resolved tracking link is excluded as
a run duplicate, and the bypass clause fires on the utm-variant pair. -/
theorem duplicate_final_url_excluded_second_time_witness :
    verifySingleUrlM oC2 argsDemo "T" uC2 (some [normalizeFinalUrlForRunDedupe fC2]) =
      some (true, rC2, some [normalizeFinalUrlForRunDedupe fC2], true) ∧
    shouldSkipDuplicateFinalUrl (some [normalizeFinalUrlForRunDedupe dupUrlB]) dupUrlB
      dupUrlA = false :=
  ⟨duplicate_final_url_excluded_second_time.1 oC2 argsDemo "T" uC2 fC2 200
      [normalizeFinalUrlForRunDedupe fC2] rC2
      (by decide) (by decide) (by decide) (by decide) (by decide) (by rfl) (by rfl)
      (by decide) (by decide) (by decide) (by decide) (by decide) (by rfl) (by decide),
   duplicate_final_url_excluded_second_time.2 (some [normalizeFinalUrlForRunDedupe dupUrlB])
      dupUrlB dupUrlA (by decide)⟩

/-- C8, counterexample: a lone "%" input makes the entry-point
`normalizeDoi` throw before any try/catch, so `verifySingleUrl` rejects
and the whole batch fails, including its healthy URLs. -/
theorem malformed_percent_crashes_batch :
    verifySingleUrlM oNavDemo argsDemo "T" "%" (some []) = none ∧
    runBatch (fun _ => oNavDemo) argsDemo "T" ["https://x.com/a", "%"] 0 (some []) = none := by
  decide

/-- One failed-navigation target iteration appends exactly one error
entry and moves on. -/
theorem runTarget_navfail (o : Oracles) (args : Args) (now u : String) (a : Nat)
    (seen : SeenSet) (errors : List ErrEntry) (net : Bool)
    (en em : Nat → String) (cs : Nat → List String)
    (hsafe : classifyUnsafePreNavigationLink u "" = none)
    (htrack : isTrackingUrl u = false)
    (hnonart : classifyKnownNonArticleLink u = none)
    (hmode : args.sciencedirectMode = "browser")
    (hnav : o.nav a u = .err (en a) (em a) (cs a)) :
    runTarget o args now u a u seen errors net =
      .nextTarget seen (errors ++ [navErrEntry u en em cs a]) true (policyForUrl u) := by
  have hskip : shouldSkipDuplicateFinalUrl seen u u = false :=
    shouldSkip_of_normalize_eq seen u u rfl
  simp only [runTarget, hsafe, resolveTrackedUrlM, htrack, Bool.not_false, Bool.or_true,
    if_true, hskip, Bool.false_eq_true, if_false, hnonart, hmode, browserStep, hnav,
    navErrEntry]
  simp

/-- The attempt loop under an always-failing navigation accumulates one
entry per attempt and ends in the failure-record construction. -/
theorem attempts_navfail (o : Oracles) (args : Args) (now u : String)
    (en em : Nat → String) (cs : Nat → List String)
    (hsafe : classifyUnsafePreNavigationLink u "" = none)
    (htrack : isTrackingUrl u = false)
    (hnonart : classifyKnownNonArticleLink u = none)
    (hmode : args.sciencedirectMode = "browser")
    (hnav : ∀ a, o.nav a u = .err (en a) (em a) (cs a)) :
    ∀ (k a : Nat) (seen : SeenSet) (errors : List ErrEntry) (net : Bool),
      attemptsGo o args now u [u] k a seen errors net (policyForUrl u) =
        (match buildVerificationFailureRecord u (policyForUrl u)
            (errors ++ (List.range k).map (fun i => navErrEntry u en em cs (a + i))) now with
         | none => VOut.thrown
         | some r => VOut.result false r seen (net || !(k == 0))) := by
  intro k
  induction k with
  | zero =>
    intro a seen errors net
    simp only [attemptsGo, List.range_zero, List.map_nil, List.append_nil, Nat.zero_eq,
      beq_self_eq_true, Bool.not_true, Bool.or_false]
  | succ n ih =>
    intro a seen errors net
    have hlist : (errors ++ [navErrEntry u en em cs a]) ++
        (List.range n).map (fun i => navErrEntry u en em cs (a + 1 + i)) =
        errors ++ (List.range (n + 1)).map (fun i => navErrEntry u en em cs (a + i)) := by
      rw [List.append_assoc, List.range_succ_eq_map]
      simp only [List.map_cons, List.map_map, Nat.add_zero, List.singleton_append]
      congr 2
      apply List.map_congr_left
      intro i _
      simp only [Function.comp]
      congr 1
      omega
    simp only [attemptsGo, targetsGo,
      runTarget_navfail o args now u a seen errors net en em cs hsafe htrack hnonart hmode
        (hnav a)]
    rw [ih (a + 1) seen (errors ++ [navErrEntry u en em cs a]) true]
    rw [hlist]
    have : ((n + 1 : Nat) == 0) = false := by simp
    rw [this]
    simp [Bool.or_true]

/-- C8, amended.  For every input whose percent-escapes are well-formed
(the entry-point `normalizeDoi` succeeds), here on the plain browser
path: the machine never throws; when every navigation attempt errors it
returns, after exactly `maxRetries` attempts, the terminal not-verified
failure record whose errors array lists one accumulated diagnostic per
attempt (name, message and challenge signals of that attempt's error).
A malformed input such as "%" still escapes as an exception. -/
theorem wellformed_input_always_yields_record :
    ∀ (o : Oracles) (args : Args) (now u : String) (seen : SeenSet)
      (en em : Nat → String) (cs : Nat → List String),
      normalizeDoi u = some "" →
      cleanText u = u → u.isEmpty = false →
      classifyUnsafePreNavigationLink u "" = none →
      isTrackingUrl u = false →
      classifyKnownNonArticleLink u = none →
      args.sciencedirectMode = "browser" →
      (∀ a, o.nav a u = .err (en a) (em a) (cs a)) →
      1 ≤ args.maxRetries →
      ∃ r, buildVerificationFailureRecord u (policyForUrl u)
          ((List.range args.maxRetries).map (fun i => navErrEntry u en em cs (1 + i))) now =
            some r ∧
        verifySingleUrlM o args now u seen = some (false, r, seen, true) ∧
        r.status = "not_verified" ∧ r.ingestReason = "verification_failed" ∧
        r.errors = (List.range args.maxRetries).map (fun i => navErrEntry u en em cs (1 + i)) := by
  intro o args now u seen en em cs h1 hcl hne hsafe htrack hnonart hmode hnav hmr
  have htg : uniqueStrings [u, ""] = [u] := by
    simp only [uniqueStrings, uniqueStringsGo, hcl, hne, List.contains_nil,
      Bool.false_eq_true, if_false, show (cleanText "").isEmpty = true from rfl, if_true]
  have hb : buildVerificationFailureRecord u (policyForUrl u)
      ((List.range args.maxRetries).map (fun i => navErrEntry u en em cs (1 + i))) now =
      some { sourceUrl := u, finalUrl := u,
             title := "[Not verified]", authors := [],
             year := "[Not verified]", journal := "[Not verified]",
             volume := "[Not verified]", issue := "[Not verified]",
             pageRange := "[Not verified]", publishedOnline := "[Not verified]",
             doiUrl := ensureField "",
             abstract := "[Not verified]", citation := "[Not verified]",
             missingFields := ["title", "journal", "year", "abstract", "citation"],
             status := "not_verified",
             articleTypeRaw := "[Not verified]", articleType := "[Not verified]",
             ingestDecision := "not_verified", ingestReason := "verification_failed",
             articleTypeClassificationSource := "none", articleTypeMatchedHint := "",
             policyName := jsOrS (policyForUrl u).name "default",
             policyProtected := (policyForUrl u).protectedFlag,
             verifiedAt := now,
             errors := (List.range args.maxRetries).map (fun i => navErrEntry u en em cs (1 + i)) } := by
    simp only [buildVerificationFailureRecord, h1, Option.map]
  refine ⟨_, hb, ?_, rfl, rfl, rfl⟩
  simp only [verifySingleUrlM, h1, htg]
  rw [attempts_navfail o args now u en em cs hsafe htrack hnonart hmode hnav
    args.maxRetries 1 seen [] false]
  have hz : (args.maxRetries == 0) = false := by
    cases hmx : args.maxRetries with
    | zero => omega
    | succ n => simp
  simp only [List.nil_append]
  rw [hb, hz]
  simp only [Bool.not_false, Bool.false_or]

/-- Witness for the amended C8 at a concrete always-timeout oracle. -/
theorem wellformed_input_always_yields_record_witness :
    ∃ r, buildVerificationFailureRecord "https://x.com/a" (policyForUrl "https://x.com/a")
        ((List.range argsDemo.maxRetries).map (fun i =>
          navErrEntry "https://x.com/a" (fun _ => "TimeoutError")
            (fun _ => "page.goto: Timeout exceeded") (fun _ => []) (1 + i))) "T" = some r ∧
      verifySingleUrlM oErrDemo argsDemo "T" "https://x.com/a" (some []) =
        some (false, r, some [], true) ∧
      r.status = "not_verified" ∧ r.ingestReason = "verification_failed" ∧
      r.errors = (List.range argsDemo.maxRetries).map (fun i =>
          navErrEntry "https://x.com/a" (fun _ => "TimeoutError")
            (fun _ => "page.goto: Timeout exceeded") (fun _ => []) (1 + i)) :=
  wellformed_input_always_yields_record oErrDemo argsDemo "T" "https://x.com/a" (some [])
    (fun _ => "TimeoutError") (fun _ => "page.goto: Timeout exceeded") (fun _ => [])
    (by decide) (by decide) (by decide) (by decide) (by decide) (by decide) (by rfl)
    (fun a => rfl) (by decide)

end VPR
